import Mathlib

/-!
Verification of the UNOS tab-tracker core: identity reconciliation,
write-batched persistence, session lifecycle, visit intervals and the
relationship graph.  The definitions below are a shallow embedding of the
TypeScript sources (src/services/TabTracker.ts, src/services/StorageManager.ts,
src/services/InitializationService.ts, src/services/RelationshipManager.ts,
src/constants/retention.ts, src/db/types.ts).

Modelling conventions:
* Timestamps are `Nat` milliseconds (`Date.now()`), passed explicitly as `now`.
* Database tables are Lean lists in primary-key (insertion) order; Dexie
  `update`/`delete` address records through the unique `&persistentId` index
  (respectively the `id` primary key of sessions), so record identity is
  modelled by `persistentId`/`id` and theorems assume these are duplicate-free,
  as the schema enforces.
* Dexie `Collection.sortBy` and JS `Array.prototype.sort` are stable sorts;
  `Collection.reverse()` before `sortBy` yields a stable descending sort
  (Dexie's sorter flips the comparison when the collection direction is
  reversed).  Both are modelled by the stable insertion sort `insertionSortBy`.
* JS falsy-string coalescing (`a || b`) on strings is modelled by `jsOr`,
  with `""` standing for the falsy values (empty string / undefined).
* `generateUUID()` is modelled by an explicit supply of fresh identifiers;
  freshness and injectivity become hypotheses.  `hashUrl` (SHA-256 of the
  normalized URL) is an opaque function parameter.
-/

namespace Unos

/-! ### Stable sort (models Dexie `sortBy` / JS stable `Array.prototype.sort`) -/

/-- Insert `a` into `l` before the first element `b` with `le a b`.  Keeps
equal-key elements in their original relative order. -/
def insertBy (le : α → α → Bool) (a : α) : List α → List α
  | [] => [a]
  | b :: l => if le a b then a :: b :: l else b :: insertBy le a l

/-- Stable insertion sort by the boolean relation `le`. -/
def insertionSortBy (le : α → α → Bool) : List α → List α
  | [] => []
  | a :: l => insertBy le a (insertionSortBy le l)

/-! ### Data model (src/db/types.ts) -/

/-- Core tracked tab entity (`TrackedTab` in src/db/types.ts).  The
auto-increment IndexedDB key `id` is omitted: records are addressed through
the unique `&persistentId` index.  `customMetadata` (an inert opaque map) is
omitted; `faviconUrl : string | null` and `notes : string | null` become
`Option String`, `closedAt : number | null` becomes `Option Nat`. -/
structure TrackedTab where
  persistentId : String
  chromeTabId : Nat
  chromeWindowId : Nat
  url : String
  urlHash : String
  title : String
  faviconUrl : Option String
  status : String
  pinned : Bool
  index : Nat
  groupId : Int
  openerPersistentId : Option String
  createdAt : Nat
  lastActivatedAt : Nat
  totalActiveTime : Nat
  sessionId : String
  windowPersistentId : String
  isSaved : Bool
  isPinned : Bool
  visitCount : Nat
  notes : Option String
  tags : List String
  closedAt : Option Nat
  updatedAt : Nat
deriving Repr, DecidableEq

/-- Session entity (`Session` in src/db/types.ts); `customMetadata` omitted. -/
structure Session where
  id : String
  name : String
  description : String
  startedAt : Nat
  endedAt : Option Nat
  isActive : Bool
  isSaved : Bool
  windowCount : Nat
  tabCount : Nat
  totalActiveTime : Nat
  expiresAt : Option Nat
  tags : List String
  createdAt : Nat
  updatedAt : Nat
deriving Repr, DecidableEq

/-- Tab visit interval record (`TabVisit` in src/db/types.ts).  `duration` is
`deactivatedAt - activatedAt`, computed when the interval closes. -/
structure TabVisit where
  tabPersistentId : String
  sessionId : String
  url : String
  urlHash : String
  title : String
  activatedAt : Nat
  deactivatedAt : Option Nat
  duration : Int
  windowPersistentId : String
  fromTabPersistentId : Option String
deriving Repr, DecidableEq

/-- Relationship kind (`RelationshipType` in src/db/types.ts). -/
inductive RelationshipType where
  | opener
  | sibling
  | temporal
deriving Repr, DecidableEq

/-- Tab relationship edge (`TabRelationship` in src/db/types.ts); the inert
`metadata` map is omitted and `strength` is a rational. -/
structure TabRelationship where
  sourceTabPersistentId : String
  targetTabPersistentId : String
  relationshipType : RelationshipType
  createdAt : Nat
  strength : ℚ
deriving Repr, DecidableEq

/-- JS `a || b` for strings: `""` models the falsy values. -/
def jsOr (a b : String) : String := if a = "" then b else a

/-! ### Retention constants (src/constants/retention.ts) -/

def RETENTION_UNSAVED_SESSION_TTL_DAYS : Nat := 7

def RETENTION_WEAK_RELATIONSHIP_THRESHOLD : ℚ := 2 / 10

def RETENTION_TEMPORAL_PROXIMITY_MINUTES : ℚ := 10

def STORAGE_LIMITS_MAX_PENDING_WRITES : Nat := 100

/-- Expiry timestamp of an unsaved session (`calculateSessionExpiry`). -/
def calculateSessionExpiry (startedAt : Nat) : Nat :=
  startedAt + RETENTION_UNSAVED_SESSION_TTL_DAYS * 24 * 60 * 60 * 1000

/-- Temporal proximity strength (`calculateTemporalStrength`).  JS number
arithmetic on these small integer ratios is modelled exactly over `ℚ`. -/
def calculateTemporalStrength (timeDiffMs : ℚ) : ℚ :=
  let maxDiffMs := RETENTION_TEMPORAL_PROXIMITY_MINUTES * 60 * 1000
  if timeDiffMs ≥ maxDiffMs then 0 else 1 - timeDiffMs / maxDiffMs

/-! ### InitializationService (src/services/InitializationService.ts) -/

/-- The fields of a `chrome.tabs.Tab` that the reconciliation code reads.
Optional string fields use `""` for absent/falsy values (see `jsOr`). -/
structure ChromeTab where
  id : Nat
  windowId : Nat
  url : String
  pendingUrl : String
  title : String
  favIconUrl : String
  status : String
  pinned : Bool
  active : Bool
  index : Nat
  groupId : Int
deriving Repr, DecidableEq

/-- `chromeTab.url || chromeTab.pendingUrl || ''`. -/
def ChromeTab.resolvedUrl (c : ChromeTab) : String := jsOr c.url (jsOr c.pendingUrl "")

/-- Find an existing CLOSED tab by URL hash to reuse
(`InitializationService.findExistingTabByUrl`): only tabs with
`closedAt !== null` that closed within the last five minutes qualify; the
candidates are sorted ascending by `lastActivatedAt` and the last (most
recently active) one is returned.  The unused `sessionId` parameter of the
source is kept. -/
def findExistingTabByUrl (db : List TrackedTab) (now : Nat) (urlHash : String)
    (sessionId : String) : Option TrackedTab :=
  let _ := sessionId
  let fiveMinutesAgo := now - 5 * 60 * 1000
  let candidates :=
    insertionSortBy (fun a b => decide (a.lastActivatedAt ≤ b.lastActivatedAt))
      ((db.filter (fun t => t.urlHash == urlHash)).filter
        (fun t => match t.closedAt with
          | some c => decide (fiveMinutesAgo < c)
          | none => false))
  candidates.getLast?

/-- The `db.tabs.update(existingTab.id!, {...})` payload applied when an
existing record is reused (`InitializationService.createOrReuseTabRecord`,
reuse branch).  Tags, notes and `totalActiveTime` are not among the updated
fields. -/
def applyReuseUpdate (c : ChromeTab) (sessionId windowPersistentId : String)
    (now : Nat) (t : TrackedTab) : TrackedTab :=
  { t with
    chromeTabId := c.id
    chromeWindowId := c.windowId
    sessionId := sessionId
    windowPersistentId := windowPersistentId
    closedAt := none
    lastActivatedAt := if c.active then now else t.lastActivatedAt
    title := jsOr c.title t.title
    faviconUrl := if c.favIconUrl = "" then t.faviconUrl else some c.favIconUrl
    status := jsOr c.status "complete"
    pinned := c.pinned
    index := c.index
    updatedAt := now }

/-- The fresh record inserted when no resurrection candidate exists
(`InitializationService.createOrReuseTabRecord`, create branch). -/
def newTabRecord (freshId : String) (c : ChromeTab) (urlHash : String)
    (sessionId windowPersistentId : String) (now : Nat) : TrackedTab :=
  { persistentId := freshId
    chromeTabId := c.id
    chromeWindowId := c.windowId
    url := c.resolvedUrl
    urlHash := urlHash
    title := jsOr c.title ""
    faviconUrl := if c.favIconUrl = "" then none else some c.favIconUrl
    status := jsOr c.status "complete"
    pinned := c.pinned
    index := c.index
    groupId := c.groupId
    openerPersistentId := none
    createdAt := now
    lastActivatedAt := if c.active then now else 0
    totalActiveTime := 0
    sessionId := sessionId
    windowPersistentId := windowPersistentId
    isSaved := false
    isPinned := false
    visitCount := 0
    notes := none
    tags := []
    closedAt := none
    updatedAt := now }

/-- Create a new tab record or reuse an existing closed one based on URL
matching (`InitializationService.createOrReuseTabRecord`).  Returns the new
database, the resulting record, and whether a fresh identity was minted.
`hash` models `hashUrl`, `freshId` models `generateUUID()`. -/
def createOrReuseTabRecord (hash : String → String) (freshId : String)
    (db : List TrackedTab) (c : ChromeTab) (sessionId windowPersistentId : String)
    (now : Nat) : List TrackedTab × TrackedTab × Bool :=
  let urlHash := hash c.resolvedUrl
  match findExistingTabByUrl db now urlHash sessionId with
  | some existingTab =>
      let updated := applyReuseUpdate c sessionId windowPersistentId now existingTab
      (db.map (fun t => if t.persistentId = existingTab.persistentId then updated else t),
       updated, false)
  | none =>
      let tabRecord := newTabRecord freshId c urlHash sessionId windowPersistentId now
      (db ++ [tabRecord], tabRecord, true)

/-- One full reconciliation pass over the enumerated live tabs of a window
(the tab loop of `InitializationService.reconcileAllTabsAndWindows`): each
live tab is resolved through `createOrReuseTabRecord` in sequence.  `uuid k`
is the identifier minted by the k-th `generateUUID()` call.  Returns the
final database and the stable id assigned to each live tab, in order. -/
def reconcilePass (hash : String → String) (uuid : Nat → String)
    (sessionId windowPersistentId : String) (now : Nat) :
    List ChromeTab → List TrackedTab → Nat → List TrackedTab × List String
  | [], db, _ => (db, [])
  | c :: rest, db, k =>
      let step := createOrReuseTabRecord hash (uuid k) db c sessionId windowPersistentId now
      let next := reconcilePass hash uuid sessionId windowPersistentId now rest step.1
        (if step.2.2 then k + 1 else k)
      (next.1, step.2.1.persistentId :: next.2)

/-- The `db.sessions.update(session.id, {...})` payload that retires an
active session in `InitializationService.ensureSession`. -/
def sessionRetire (now : Nat) (s : Session) : Session :=
  { s with isActive := false, endedAt := some now, updatedAt := now }

/-- Result of `ensureSession`: the new session table, the session returned to
the caller, and whether a new session was minted. -/
structure EnsureSessionResult where
  db : List Session
  session : Session
  minted : Bool
deriving Repr, DecidableEq

/-- Session election (`InitializationService.ensureSession`).  The source
fetches the active sessions with `where('isActive').equals(1).reverse()
.sortBy('startedAt')` — a stable sort on `startedAt` that is *descending*
because the collection direction is reversed — and then takes the LAST
element of that array as `mostRecentSession`, i.e. the active session with
the smallest `startedAt`.  If that session started within the last hour it
is kept and every other active session is retired; otherwise all active
sessions are retired and a fresh one is minted.  The session name in the
source is `Session ${new Date(now).toLocaleString()}`; the locale rendering
is modelled by `Nat.repr now`. -/
def ensureSession (freshId : String) (db : List Session) (now : Nat) :
    EnsureSessionResult :=
  let oneHourAgo := now - 60 * 60 * 1000
  let activeSessions :=
    insertionSortBy (fun a b => decide (b.startedAt ≤ a.startedAt))
      (db.filter (fun s => s.isActive))
  match activeSessions.getLast? with
  | some mostRecentSession =>
      if oneHourAgo < mostRecentSession.startedAt then
        { db := db.map (fun s =>
            if s.isActive ∧ s.id ≠ mostRecentSession.id then sessionRetire now s else s)
          session := mostRecentSession
          minted := false }
      else
        let ended := db.map (fun s => if s.isActive then sessionRetire now s else s)
        let session : Session :=
          { id := freshId
            name := "Session " ++ Nat.repr now
            description := ""
            startedAt := now
            endedAt := none
            isActive := true
            isSaved := false
            windowCount := 0
            tabCount := 0
            totalActiveTime := 0
            expiresAt := some (calculateSessionExpiry now)
            tags := []
            createdAt := now
            updatedAt := now }
        { db := ended ++ [session], session := session, minted := true }
  | none =>
      let session : Session :=
        { id := freshId
          name := "Session " ++ Nat.repr now
          description := ""
          startedAt := now
          endedAt := none
          isActive := true
          isSaved := false
          windowCount := 0
          tabCount := 0
          totalActiveTime := 0
          expiresAt := some (calculateSessionExpiry now)
          tags := []
          createdAt := now
          updatedAt := now }
      { db := db ++ [session], session := session, minted := true }

/-- The memoization state of `InitializationService.initialize`:
`initializationComplete`, whether `initPromise` is non-null, and a ghost
count of how many times `doInitialize` has started executing. -/
structure InitState where
  initializationComplete : Bool
  initPromiseSet : Bool
  doInitializeRuns : Nat
deriving Repr, DecidableEq

/-- State of a fresh process before the first `initialize()` call. -/
def InitState.start : InitState := ⟨false, false, 0⟩

/-- The synchronous prefix of one `initialize()` call: the completion check,
the in-flight-promise check, and the assignment `this.initPromise =
this.doInitialize()` all run before the first suspension point, so under
the single-threaded event-loop model a call is one atomic step. -/
def initializeCall (s : InitState) : InitState :=
  if s.initializationComplete then s
  else if s.initPromiseSet then s
  else { s with initPromiseSet := true, doInitializeRuns := s.doInitializeRuns + 1 }

/-- N concurrent `initialize()` calls racing at cold start: their synchronous
prefixes execute in some sequence. -/
def initializeCalls : Nat → InitState → InitState
  | 0, s => s
  | n + 1, s => initializeCalls n (initializeCall s)

/-! ### Duplicate-compaction sweep (`InitializationService.cleanupDuplicateTabs`) -/

/-- Whether a record is closed (`closedAt !== null`). -/
def isClosed (t : TrackedTab) : Bool := t.closedAt.isSome

/-- The closed records, in primary-key order (`db.tabs.filter(t => t.closedAt !== null)`). -/
def closedTabs (db : List TrackedTab) : List TrackedTab := db.filter isClosed

/-- First-occurrence deduplication, preserving order — the key order of the
JS `Map` used to group closed tabs by URL hash. -/
def dedupKeepFirst (seen : List String) : List String → List String
  | [] => []
  | t :: rest =>
      if t ∈ seen then dedupKeepFirst seen rest
      else t :: dedupKeepFirst (t :: seen) rest

/-- The URL hashes of the closed records, each once, in first-appearance
order (the iteration order of the grouping `Map`). -/
def groupHashes (db : List TrackedTab) : List String :=
  dedupKeepFirst [] ((closedTabs db).map (fun t => t.urlHash))

/-- The closed records sharing URL hash `h`, in insertion order (the group
list built for key `h` by the sweep). -/
def closedGroup (db : List TrackedTab) (h : String) : List TrackedTab :=
  (closedTabs db).filter (fun t => t.urlHash == h)

/-- `tabs.sort((a, b) => b.lastActivatedAt - a.lastActivatedAt)`: stable
descending sort by most recent activity. -/
def sortGroupDesc (g : List TrackedTab) : List TrackedTab :=
  insertionSortBy (fun a b => decide (b.lastActivatedAt ≤ a.lastActivatedAt)) g

/-- The records the sweep deletes in group `h`: everything except the first
(most recently active) element of the sorted group.  The source only sorts
groups with more than one member, but for singleton groups `drop 1` equally
deletes nothing. -/
def deletedInGroup (db : List TrackedTab) (h : String) : List TrackedTab :=
  (sortGroupDesc (closedGroup db h)).drop 1

/-- Persistent ids of every record deleted by one sweep. -/
def deletedIds (db : List TrackedTab) : List String :=
  (groupHashes db).flatMap (fun h => (deletedInGroup db h).map (fun t => t.persistentId))

/-- One duplicate-compaction sweep (`cleanupDuplicateTabs`): the surviving
table and the number of deleted records. -/
def cleanupDuplicateTabs (db : List TrackedTab) : List TrackedTab × Nat :=
  (db.filter (fun t => ¬ t.persistentId ∈ deletedIds db),
   ((groupHashes db).map (fun h => (deletedInGroup db h).length)).sum)

/-! ### StorageManager write queue (src/services/StorageManager.ts) -/

/-- Pending write operation kind. -/
inductive WriteOp where
  | put
  | del
deriving Repr, DecidableEq

/-- A pending write (`PendingWrite` in StorageManager.ts); the `unknown`
payload is modelled as a `String`. -/
structure PendingWrite where
  table : String
  operation : WriteOp
  key : String
  data : String
  timestamp : Nat
deriving Repr, DecidableEq

/-- JS `Map.set` on an insertion-ordered association list: an existing key
keeps its position and has its value replaced; a new key is appended. -/
def mapSet (m : List (String × PendingWrite)) (k : String) (v : PendingWrite) :
    List (String × PendingWrite) :=
  if m.any (fun p => p.1 == k) then
    m.map (fun p => if p.1 == k then (k, v) else p)
  else m ++ [(k, v)]

/-- The StorageManager state relevant to the write-batching layer: the
insertion-ordered write queue (`writeQueue : Map<string, PendingWrite>`),
whether a delayed flush is scheduled (`flushTimer !== null`), a log of the
operations committed to IndexedDB so far (ghost), and the number of
size-forced flushes fired from `enqueueWrite` (ghost). -/
structure SMState where
  writeQueue : List (String × PendingWrite)
  flushTimer : Bool
  applied : List PendingWrite
  forcedFlushCount : Nat
deriving Repr, DecidableEq

/-- A StorageManager whose queue is empty and which has committed nothing. -/
def SMState.start : SMState := ⟨[], false, [], 0⟩

/-- The operations `flushWrites` issues for one table: `bulkPut` of the
queued puts, then the queued deletions. -/
def tableOps (ops : List PendingWrite) (t : String) : List PendingWrite :=
  let tOps := ops.filter (fun o => o.table == t)
  tOps.filter (fun o => o.operation == WriteOp.put) ++
    tOps.filter (fun o => o.operation == WriteOp.del)

/-- Apply the grouped writes table by table.  `storeOk t` says whether the
underlying store accepts the writes for table `t`; on the first failing
table the flush raises and nothing of that table (or the following ones)
commits.  Returns the committed operations and whether the flush succeeded. -/
def applyTables (storeOk : String → Bool) (ops : List PendingWrite) :
    List String → List PendingWrite × Bool
  | [] => ([], true)
  | t :: rest =>
      if storeOk t then
        let next := applyTables storeOk ops rest
        (tableOps ops t ++ next.1, next.2)
      else ([], false)

/-- Flush all pending writes (`StorageManager.flushWrites`).  The source
snapshots the queue with `Array.from(this.writeQueue.values())` and then
clears the queue and the timer BEFORE any store write is awaited; the
grouped writes are then committed per table.  Returns the new state and
whether the flush completed without a store error. -/
def flushWrites (storeOk : String → Bool) (s : SMState) : SMState × Bool :=
  if s.writeQueue.isEmpty then (s, true)
  else
    let operations := s.writeQueue.map Prod.snd
    let tables := dedupKeepFirst [] (operations.map (fun o => o.table))
    let committed := applyTables storeOk operations tables
    ({ s with
        writeQueue := []
        flushTimer := false
        applied := s.applied ++ committed.1 }, committed.2)

/-- Enqueue one write (`StorageManager.enqueueWrite`): coalesce by
`` `${table}:${key}` ``, then flush immediately when the queue has reached
`STORAGE_LIMITS.MAX_PENDING_WRITES`, otherwise arm the delayed flush.  The
synchronous prefix of the fired `flushWrites` (snapshot, clear) runs before
`enqueueWrite` returns; `storeOk` gives the store behaviour of that flush. -/
def enqueueWrite (storeOk : String → Bool) (s : SMState) (table key : String)
    (operation : WriteOp) (data : String) (now : Nat) : SMState :=
  let queueKey := table ++ ":" ++ key
  let s1 := { s with
    writeQueue := mapSet s.writeQueue queueKey ⟨table, operation, key, data, now⟩ }
  if STORAGE_LIMITS_MAX_PENDING_WRITES ≤ s1.writeQueue.length then
    let flushed := flushWrites storeOk s1
    { flushed.1 with forcedFlushCount := flushed.1.forcedFlushCount + 1 }
  else
    { s1 with flushTimer := true }

/-- Enqueue a batch of `(table, key, data)` writes in order, all `put`s with
an always-succeeding store (the C6 scenario). -/
def enqueueAll (s : SMState) : List (String × String × String) → SMState
  | [] => s
  | (t, k, d) :: rest => enqueueAll (enqueueWrite (fun _ => true) s t k WriteOp.put d 0) rest

/-- 150 writes to distinct keys of the `tabs` table. -/
def c6Writes : List (String × String × String) :=
  (List.range 150).map (fun i => ("tabs", "k" ++ Nat.repr i, "payload"))

/-! ### TabTracker visit intervals (src/services/TabTracker.ts) -/

/-- Whether `v` is an open visit interval owned by `id`
(`v.tabPersistentId === id && v.deactivatedAt === null`). -/
def openFor (id : String) (v : TabVisit) : Bool :=
  v.tabPersistentId == id && v.deactivatedAt == none

/-- Close the LAST open visit of owner `id` (`TabTracker.closeActiveVisit`:
`.where('tabPersistentId').equals(id).filter(v => v.deactivatedAt === null)
.last()` followed by an update of that record): scan to the last matching
record, set `deactivatedAt` and `duration`; no match leaves the table
unchanged. -/
def closeLastOpen (id : String) (deactivatedAt : Nat) : List TabVisit → List TabVisit
  | [] => []
  | v :: vs =>
      if vs.any (openFor id) then v :: closeLastOpen id deactivatedAt vs
      else if openFor id v then
        { v with
          deactivatedAt := some deactivatedAt
          duration := (deactivatedAt : Int) - (v.activatedAt : Int) } :: vs
      else v :: vs

/-- The TabTracker-visible state: the visits table, the tabs table, the
working state (current session, active tab pointer and its activation
timestamp) and the chromeTabId → persistentId cache.  The sessions and
windows tables, whose aggregate-count updates never touch visits, are
elided. -/
structure TrackerState where
  visits : List TabVisit
  tabs : List TrackedTab
  currentSessionId : Option String
  activeTabPersistentId : Option String
  tabActivationTimestamp : Nat
  tabIdCache : List (Nat × String)
deriving Repr, DecidableEq

/-- Update every tab record with the given persistent id
(`db.tabs.where('persistentId').equals(id).modify(f)`). -/
def modifyTab (tabs : List TrackedTab) (id : String) (f : TrackedTab → TrackedTab) :
    List TrackedTab :=
  tabs.map (fun t => if t.persistentId = id then f t else t)

/-- Create a visit record for a tab activation (`TabTracker.createVisit`):
look the tab up by persistent id and append an open interval; a missing
session or tab record creates nothing. -/
def createVisit (s : TrackerState) (tabPersistentId : String)
    (fromTabPersistentId : Option String) (windowPersistentId : Option String)
    (activatedAt : Nat) : TrackerState :=
  match s.currentSessionId with
  | none => s
  | some sessionId =>
      match s.tabs.find? (fun t => t.persistentId == tabPersistentId) with
      | none => s
      | some tab =>
          { s with visits := s.visits ++
              [{ tabPersistentId := tabPersistentId
                 sessionId := sessionId
                 url := tab.url
                 urlHash := tab.urlHash
                 title := tab.title
                 activatedAt := activatedAt
                 deactivatedAt := none
                 duration := 0
                 windowPersistentId := windowPersistentId.getD ""
                 fromTabPersistentId := fromTabPersistentId }] }

/-- Handle a tab activation (`TabTracker.handleTabActivated`).  The window
table update ("update window's active tab") is elided along with the
windows table; every other step is translated: close the previous visit and
charge its duration, resolve the new tab through the cache, stamp
`lastActivatedAt`, create the new visit and update the working state.
`windowPersistentId` is the cached mapping of the event's `windowId`. -/
def handleTabActivated (s : TrackerState) (tabId : Nat)
    (windowPersistentId : Option String) (now : Nat) : TrackerState :=
  match s.currentSessionId with
  | none => s
  | some _sessionId =>
      let previousTabId := s.activeTabPersistentId
      let activationTime := s.tabActivationTimestamp
      let s1 :=
        match previousTabId with
        | some prev =>
            if 0 < activationTime then
              let duration := now - activationTime
              let s1 := { s with tabs := modifyTab s.tabs prev (fun t =>
                { t with totalActiveTime := t.totalActiveTime + duration, updatedAt := now }) }
              { s1 with visits := closeLastOpen prev now s1.visits }
            else s
        | none => s
      match s1.tabIdCache.lookup tabId with
      | none =>
          { s1 with activeTabPersistentId := none, tabActivationTimestamp := 0 }
      | some newPersistentId =>
          let s2 := { s1 with tabs := modifyTab s1.tabs newPersistentId (fun t =>
            { t with lastActivatedAt := now, updatedAt := now }) }
          let s3 := createVisit s2 newPersistentId previousTabId windowPersistentId now
          { s3 with activeTabPersistentId := some newPersistentId,
                    tabActivationTimestamp := now }

/-- Handle a tab removal (`TabTracker.handleTabRemoved`): close any open
visit of the tab, charge the active-time if it was the active tab and clear
the active pointer, mark the record closed, and drop the cache mapping.
(The session tab-count update is elided with the sessions table.) -/
def handleTabRemoved (s : TrackerState) (tabId : Nat) (now : Nat) : TrackerState :=
  match s.tabIdCache.lookup tabId with
  | none => s
  | some persistentId =>
      let s1 := { s with visits := closeLastOpen persistentId now s.visits }
      let s2 :=
        if s1.activeTabPersistentId = some persistentId then
          let s2 :=
            if 0 < s1.tabActivationTimestamp then
              let duration := now - s1.tabActivationTimestamp
              { s1 with tabs := modifyTab s1.tabs persistentId (fun t =>
                  { t with totalActiveTime := t.totalActiveTime + duration }) }
            else s1
          { s2 with activeTabPersistentId := none, tabActivationTimestamp := 0 }
        else s1
      let s3 := { s2 with tabs := modifyTab s2.tabs persistentId (fun t =>
        { t with closedAt := some now, updatedAt := now }) }
      { s3 with tabIdCache := s3.tabIdCache.filter (fun p => ¬ p.1 = tabId) }

/-- One handler step of the tracker, at a positive wall-clock time
(`Date.now()` of the handler). -/
inductive TrackerStep : TrackerState → TrackerState → Prop
  | activated (s : TrackerState) (tabId : Nat) (windowPersistentId : Option String)
      (now : Nat) (hnow : 0 < now) :
      TrackerStep s (handleTabActivated s tabId windowPersistentId now)
  | removed (s : TrackerState) (tabId : Nat) (now : Nat) (hnow : 0 < now) :
      TrackerStep s (handleTabRemoved s tabId now)

/-- An initial tracker state: no visit intervals yet, no active tab. -/
def TrackerState.initial (tabs : List TrackedTab) (sessionId : Option String)
    (cache : List (Nat × String)) : TrackerState :=
  ⟨[], tabs, sessionId, none, 0, cache⟩

/-- States reachable from an initial state by handler steps. -/
def TrackerReachable (s : TrackerState) : Prop :=
  ∃ tabs sessionId cache,
    Relation.ReflTransGen TrackerStep (TrackerState.initial tabs sessionId cache) s

/-- Number of open visit intervals owned by `id`. -/
def openCount (visits : List TabVisit) (id : String) : Nat :=
  (visits.filter (openFor id)).length

/-- The tracker invariant behind C9. -/
def TrackerInv (s : TrackerState) : Prop :=
  (∀ id, openCount s.visits id ≤ 1) ∧
  (∀ v ∈ s.visits, v.deactivatedAt = none →
     s.activeTabPersistentId = some v.tabPersistentId) ∧
  (s.activeTabPersistentId ≠ none → 0 < s.tabActivationTimestamp)

/-! ### RelationshipManager opener chains (src/services/RelationshipManager.ts) -/

/-- One iteration step plus the loop of `RelationshipManager.getOpenerChain`,
with explicit fuel.  Each iteration: stop on a falsy (`""`) or
already-visited id, record the id as visited, look up the first `opener`
relationship targeting it, fetch the source tab, push it on the chain and
walk to it.  The fuel only bounds the recursion depth; `getOpenerChain`
grants enough fuel that it is never exhausted (proved below). -/
def getOpenerChainAux (tabs : List TrackedTab) (rels : List TabRelationship) :
    Nat → String → List String → List TrackedTab
  | 0, _, _ => []
  | fuel + 1, currentId, visited =>
      if currentId = "" ∨ currentId ∈ visited then []
      else
        match rels.find? (fun r =>
            r.targetTabPersistentId == currentId &&
            r.relationshipType == RelationshipType.opener) with
        | none => []
        | some relationship =>
            match tabs.find? (fun t =>
                t.persistentId == relationship.sourceTabPersistentId) with
            | none => []
            | some parentTab =>
                parentTab :: getOpenerChainAux tabs rels fuel
                  relationship.sourceTabPersistentId (currentId :: visited)

/-- Get the opener chain (ancestors) of a tab
(`RelationshipManager.getOpenerChain`). -/
def getOpenerChain (tabs : List TrackedTab) (rels : List TabRelationship)
    (tabPersistentId : String) : List TrackedTab :=
  getOpenerChainAux tabs rels (tabs.length + 2) tabPersistentId []

/-! ### Concrete instances used as counterexamples and witnesses -/

/-- A baseline live tab record. -/
def baseTab (pid : String) : TrackedTab :=
  { persistentId := pid
    chromeTabId := 0
    chromeWindowId := 0
    url := "https://example.com"
    urlHash := "h"
    title := ""
    faviconUrl := none
    status := "complete"
    pinned := false
    index := 0
    groupId := -1
    openerPersistentId := none
    createdAt := 0
    lastActivatedAt := 0
    totalActiveTime := 0
    sessionId := "s"
    windowPersistentId := "w"
    isSaved := false
    isPinned := false
    visitCount := 0
    notes := none
    tags := []
    closedAt := none
    updatedAt := 0 }

/-- A baseline active session started at `st`. -/
def baseSession (id : String) (st : Nat) : Session :=
  { id := id
    name := ""
    description := ""
    startedAt := st
    endedAt := none
    isActive := true
    isSaved := false
    windowCount := 0
    tabCount := 0
    totalActiveTime := 0
    expiresAt := none
    tags := []
    createdAt := st
    updatedAt := st }

/-- A baseline live chrome tab observed at reconciliation. -/
def baseChromeTab (cid : Nat) : ChromeTab :=
  { id := cid
    windowId := 1
    url := "https://example.com"
    pendingUrl := ""
    title := "t"
    favIconUrl := ""
    status := "complete"
    pinned := false
    active := false
    index := 0
    groupId := -1 }

/-- A coalesced pending write sitting in the queue when a flush fails. -/
def c2Write : PendingWrite := ⟨"tabs", WriteOp.put, "tab-1", "payload", 0⟩

/-- Queue state before the failing flush: one pending write, timer armed. -/
def c2State : SMState := ⟨[("tabs:tab-1", c2Write)], true, [], 0⟩

/-- Wall-clock instant of the session-election scenario. -/
def c3Now : Nat := 1700000000000

/-- An active session started 30 minutes ago. -/
def c3Older : Session := baseSession "session-older" (c3Now - 30 * 60 * 1000)

/-- An active session started 10 minutes ago — the most recently started one. -/
def c3Newer : Session := baseSession "session-newer" (c3Now - 10 * 60 * 1000)

/-- The hash function of the C5 scenario: every URL fingerprints to `"h"`. -/
def c5Hash : String → String := fun _ => "h"

/-- A record closed at `T = 1000000` carrying user-authored metadata. -/
def c5ClosedTab : TrackedTab :=
  { baseTab "tab-old" with
      closedAt := some 1000000
      lastActivatedAt := 999000
      tags := ["research"]
      notes := some "keep me"
      totalActiveTime := 42 }

/-- The reopened live tab of the C5 scenario. -/
def c5Chrome : ChromeTab := baseChromeTab 5

/-- A deterministic fresh-identifier supply standing in for `generateUUID`:
the k-th minted identifier, pairwise distinct by construction. -/
def uuidSupply (k : Nat) : String := "uuid-" ++ String.mk (List.replicate k 'x')

/-- Witness database for the duplicate-compaction sweep: two closed records
and one live record share the fingerprint `"h"`. -/
def c7Db : List TrackedTab :=
  [{ baseTab "dup-a" with closedAt := some 10, lastActivatedAt := 5 },
   { baseTab "dup-b" with closedAt := some 20, lastActivatedAt := 9 },
   baseTab "live-c"]

/-- Two live tabs with identical fingerprints observed in one pass. -/
def c1Tabs : List ChromeTab := [baseChromeTab 1, baseChromeTab 2]

/-- Database for the C1 witness: a single closed record with the shared
fingerprint, recently closed. -/
def c1Db : List TrackedTab :=
  [{ baseTab "tab-closed" with closedAt := some 999999, lastActivatedAt := 7 }]

/-- Tracker state at service start for the C9 witness: two known live tabs,
no visits yet. -/
def c9Start : TrackerState :=
  TrackerState.initial [baseTab "p1", baseTab "p2"] (some "s") [(1, "p1"), (2, "p2")]

/-- The C9 witness state: tab 1 activated at t=100, then tab 2 at t=200. -/
def c9State : TrackerState :=
  handleTabActivated (handleTabActivated c9Start 1 none 100) 2 none 200

/-- Opener edges forming a rho-shaped graph: `x` was opened by `a`, `a` by
`b`, and `b` by `a` — so `a` is an ancestor of itself. -/
def c10Rels : List TabRelationship :=
  [{ sourceTabPersistentId := "a", targetTabPersistentId := "x",
     relationshipType := RelationshipType.opener, createdAt := 0, strength := 1 },
   { sourceTabPersistentId := "b", targetTabPersistentId := "a",
     relationshipType := RelationshipType.opener, createdAt := 0, strength := 1 },
   { sourceTabPersistentId := "a", targetTabPersistentId := "b",
     relationshipType := RelationshipType.opener, createdAt := 0, strength := 1 }]

/-- The tab table of the opener-cycle counterexample. -/
def c10Tabs : List TrackedTab := [baseTab "x", baseTab "a", baseTab "b"]

/-! ## Stable-sort lemmas -/

theorem mem_insertBy {le : α → α → Bool} {a x : α} {l : List α} :
    x ∈ insertBy le a l ↔ x = a ∨ x ∈ l := by
  induction l with
  | nil => simp [insertBy]
  | cons b l ih =>
      simp only [insertBy]
      split
      · simp [List.mem_cons]
      · simp only [List.mem_cons, ih]
        tauto

theorem perm_insertBy (le : α → α → Bool) (a : α) (l : List α) :
    (insertBy le a l).Perm (a :: l) := by
  induction l with
  | nil => simp [insertBy]
  | cons b l ih =>
      simp only [insertBy]
      split
      · exact List.Perm.refl _
      · exact (ih.cons b).trans (List.Perm.swap a b l)

theorem perm_insertionSortBy (le : α → α → Bool) (l : List α) :
    (insertionSortBy le l).Perm l := by
  induction l with
  | nil => exact List.Perm.refl _
  | cons a l ih =>
      simp only [insertionSortBy]
      exact (perm_insertBy le a _).trans (ih.cons a)

theorem mem_insertionSortBy {le : α → α → Bool} {x : α} {l : List α} :
    x ∈ insertionSortBy le l ↔ x ∈ l :=
  (perm_insertionSortBy le l).mem_iff

theorem pairwise_insertBy {le : α → α → Bool}
    (htot : ∀ a b, le a b || le b a)
    (htrans : ∀ a b c, le a b = true → le b c = true → le a c = true)
    (a : α) {l : List α} (hl : l.Pairwise (fun x y => le x y = true)) :
    (insertBy le a l).Pairwise (fun x y => le x y = true) := by
  induction l with
  | nil => simp [insertBy]
  | cons b l ih =>
      rcases List.pairwise_cons.mp hl with ⟨hb, hl'⟩
      simp only [insertBy]
      split
      · rename_i hab
        refine List.pairwise_cons.mpr ⟨?_, hl⟩
        intro y hy
        rcases List.mem_cons.mp hy with rfl | hy
        · exact hab
        · exact htrans a b y hab (hb y hy)
      · rename_i hab
        refine List.pairwise_cons.mpr ⟨?_, ih hl'⟩
        intro y hy
        rcases mem_insertBy.mp hy with rfl | hy
        · have h := htot y b
          rcases Bool.or_eq_true_iff.mp h with h' | h'
          · exact absurd h' hab
          · exact h'
        · exact hb y hy

theorem pairwise_insertionSortBy {le : α → α → Bool}
    (htot : ∀ a b, le a b || le b a)
    (htrans : ∀ a b c, le a b = true → le b c = true → le a c = true)
    (l : List α) :
    (insertionSortBy le l).Pairwise (fun x y => le x y = true) := by
  induction l with
  | nil => simp [insertionSortBy]
  | cons a l ih =>
      simp only [insertionSortBy]
      exact pairwise_insertBy htot htrans a ih

theorem getLast?_mem {l : List α} {a : α} (h : l.getLast? = some a) : a ∈ l := by
  rcases List.getLast?_eq_some_iff.mp h with ⟨ys, rfl⟩
  simp

/-! ## C8: temporal strength -/

/-- C8: `calculateTemporalStrength` is `1` at time difference `0`, exactly
`0` at or beyond the 10-minute window boundary, equals `1 - dt/window`
strictly inside the window, and is monotonically decreasing in the time
difference. -/
theorem calculateTemporalStrength_shape :
    calculateTemporalStrength 0 = 1 ∧
    (∀ dt : ℚ, RETENTION_TEMPORAL_PROXIMITY_MINUTES * 60 * 1000 ≤ dt →
      calculateTemporalStrength dt = 0) ∧
    (∀ dt : ℚ, 0 ≤ dt → dt < RETENTION_TEMPORAL_PROXIMITY_MINUTES * 60 * 1000 →
      calculateTemporalStrength dt =
        1 - dt / (RETENTION_TEMPORAL_PROXIMITY_MINUTES * 60 * 1000)) ∧
    (∀ a b : ℚ, a ≤ b → calculateTemporalStrength b ≤ calculateTemporalStrength a) := by
  have hwin : RETENTION_TEMPORAL_PROXIMITY_MINUTES * 60 * 1000 = (600000 : ℚ) := by
    norm_num [RETENTION_TEMPORAL_PROXIMITY_MINUTES]
  refine ⟨?_, ?_, ?_, ?_⟩
  · norm_num [calculateTemporalStrength, RETENTION_TEMPORAL_PROXIMITY_MINUTES]
  · intro dt hdt
    rw [hwin] at hdt
    simp only [calculateTemporalStrength, hwin]
    rw [if_pos hdt]
  · intro dt _ hdt
    rw [hwin] at hdt
    simp only [calculateTemporalStrength, hwin]
    rw [if_neg (not_le.mpr hdt)]
  · intro a b hab
    simp only [calculateTemporalStrength, hwin]
    by_cases hb : (600000 : ℚ) ≤ b
    · rw [if_pos hb]
      by_cases ha : (600000 : ℚ) ≤ a
      · rw [if_pos ha]
      · rw [if_neg ha]
        push_neg at ha
        have : a / 600000 < 1 := by
          rw [div_lt_one (by norm_num)]
          exact ha
        linarith
    · rw [if_neg hb]
      have ha : ¬ (600000 : ℚ) ≤ a := fun h => hb (le_trans h hab)
      rw [if_neg ha]
      have : a / 600000 ≤ b / 600000 :=
        div_le_div_of_nonneg_right hab (by norm_num) |>.trans_eq rfl
      linarith

/-- C8 witness: the theorem applied at the window boundary and at two
interior points. -/
theorem calculateTemporalStrength_shape_witness :
    calculateTemporalStrength 600000 = 0 ∧
    calculateTemporalStrength 120000 ≤ calculateTemporalStrength 60000 :=
  ⟨calculateTemporalStrength_shape.2.1 600000 (by norm_num [RETENTION_TEMPORAL_PROXIMITY_MINUTES]),
   calculateTemporalStrength_shape.2.2.2 60000 120000 (by norm_num)⟩

/-! ## C4: single-flight initialization -/

theorem initializeCall_fixed {s : InitState} (h : s.initPromiseSet = true) :
    initializeCall s = s := by
  simp [initializeCall, h]

theorem initializeCalls_fixed (n : Nat) {s : InitState} (h : s.initPromiseSet = true) :
    initializeCalls n s = s := by
  induction n with
  | zero => rfl
  | succ m ih =>
      simp only [initializeCalls, initializeCall_fixed h]
      exact ih

/-- C4: N concurrent `initialize()` calls run `doInitialize` — and therefore
the session election — exactly once; on a cold start (empty session table)
that single election mints exactly one new session. -/
theorem initialize_single_flight_exactly_one_session
    (N : Nat) (hN : 1 ≤ N) (freshId : String) (now : Nat) :
    (initializeCalls N InitState.start).doInitializeRuns = 1 ∧
    (ensureSession freshId [] now).minted = true ∧
    (ensureSession freshId [] now).db.length = 1 := by
  refine ⟨?_, rfl, rfl⟩
  obtain ⟨m, rfl⟩ := Nat.exists_eq_add_of_le hN
  have h1 : initializeCall InitState.start = ⟨false, true, 1⟩ := rfl
  simp only [Nat.add_comm 1 m, initializeCalls, h1]
  rw [initializeCalls_fixed m (s := ⟨false, true, 1⟩) rfl]

/-- C4 witness: three racing calls, one `doInitialize` run, one minted
session. -/
theorem initialize_single_flight_exactly_one_session_witness :
    1 ≤ 3 ∧
    ((initializeCalls 3 InitState.start).doInitializeRuns = 1 ∧
     (ensureSession "fresh" [] 1700000000000).minted = true ∧
     (ensureSession "fresh" [] 1700000000000).db.length = 1) :=
  ⟨by decide, initialize_single_flight_exactly_one_session 3 (by decide) "fresh" 1700000000000⟩

/-! ## C2: flush-failure behaviour of the write queue -/

/-- C2 counterexample: with one coalesced pending write and a store whose
write raises, `flushWrites` fails — yet the pending-write queue is empty
afterwards instead of still holding the coalesced set, so a retry attempts
nothing. -/
theorem flush_failure_drops_queued_writes :
    (flushWrites (fun _ => false) c2State).2 = false ∧
    ((flushWrites (fun _ => false) c2State).1).writeQueue = [] ∧
    c2State.writeQueue ≠ [] ∧
    ((flushWrites (fun _ => false) c2State).1).writeQueue ≠ c2State.writeQueue := by
  decide

theorem flushWrites_queue_nil (storeOk : String → Bool) (s : SMState) :
    ((flushWrites storeOk s).1).writeQueue = [] := by
  rw [flushWrites]
  split
  · rename_i hemp
    exact List.isEmpty_iff.mp hemp
  · rfl

theorem flushWrites_of_empty (storeOk : String → Bool) {s : SMState}
    (h : s.writeQueue = []) : flushWrites storeOk s = (s, true) := by
  have hc : s.writeQueue.isEmpty = true := by simp [h]
  rw [flushWrites, if_pos hc]

/-- C2 amended: `flushWrites` clears the pending-write queue before the
commit, regardless of whether the commit succeeds, so after a failed flush
the queue is empty and a retry of `flushWrites` is a no-op that attempts no
writes. -/
theorem flushWrites_clears_queue_unconditionally
    (storeOk retryOk : String → Bool) (s : SMState) :
    ((flushWrites storeOk s).1).writeQueue = [] ∧
    flushWrites retryOk (flushWrites storeOk s).1 = ((flushWrites storeOk s).1, true) :=
  ⟨flushWrites_queue_nil storeOk s,
   flushWrites_of_empty retryOk (flushWrites_queue_nil storeOk s)⟩

/-! ## C3: the session election picks the oldest active session -/

/-- C3 evidence: with two active sessions — one started 30 minutes ago, one
10 minutes ago — `ensureSession` continues the 30-minute-old one (the
descending `reverse().sortBy('startedAt')` array is indexed at its LAST
element, the smallest `startedAt`), not the most recently started one that
the specification requires. -/
theorem ensureSession_continues_oldest_active_session :
    c3Older.startedAt < c3Newer.startedAt ∧
    c3Now - 60 * 60 * 1000 < c3Newer.startedAt ∧
    (ensureSession "fresh-id" [c3Older, c3Newer] c3Now).session.id = c3Older.id ∧
    (ensureSession "fresh-id" [c3Older, c3Newer] c3Now).minted = false ∧
    c3Older.id ≠ c3Newer.id := by
  decide

/-! ## C6: queue-ceiling flush trigger -/

set_option maxRecDepth 100000 in
set_option maxHeartbeats 4000000 in
/-- C6: starting from an empty queue, 150 enqueues with distinct keys and
the ceiling of 100 fire exactly one size-forced flush, which empties the
queue the moment it reaches 100 entries (before the 101st enqueue); the
remaining 50 writes sit in the queue until the next timer flush, after
which the queue is empty and every one of the 150 writes has been applied
to the store exactly once. -/
theorem queue_ceiling_triggers_single_flush :
    (enqueueAll SMState.start (c6Writes.take 100)).writeQueue = [] ∧
    (enqueueAll SMState.start (c6Writes.take 100)).forcedFlushCount = 1 ∧
    (enqueueAll SMState.start c6Writes).forcedFlushCount = 1 ∧
    (enqueueAll SMState.start c6Writes).writeQueue.length = 50 ∧
    ((flushWrites (fun _ => true) (enqueueAll SMState.start c6Writes)).1).writeQueue = [] ∧
    ((flushWrites (fun _ => true) (enqueueAll SMState.start c6Writes)).1).applied.map
        (fun o => o.key) =
      (List.range 150).map (fun i => "k" ++ Nat.repr i) ∧
    (((flushWrites (fun _ => true) (enqueueAll SMState.start c6Writes)).1).applied.map
        (fun o => o.key)).Nodup := by
  decide

/-! ## Resurrection candidate search -/

theorem eq_singleton_of_all_eq {l : List α} {r : α} (f : α → β)
    (hmem : r ∈ l) (hall : ∀ x ∈ l, x = r) (hnd : (l.map f).Nodup) : l = [r] := by
  cases l with
  | nil => cases hmem
  | cons x xs =>
      have hx : x = r := hall x (List.mem_cons_self x xs)
      subst hx
      cases xs with
      | nil => rfl
      | cons y ys =>
          exfalso
          have hy : y = x := hall y (by simp)
          subst hy
          simp at hnd

theorem length_le_one_of_all_eq {l : List α} {r : α} (f : α → β)
    (hall : ∀ x ∈ l, x = r) (hnd : (l.map f).Nodup) : l.length ≤ 1 := by
  cases l with
  | nil => simp
  | cons x xs =>
      cases xs with
      | nil => simp
      | cons y ys =>
          exfalso
          have hx : x = r := hall x (by simp)
          have hy : y = r := hall y (by simp)
          rw [hx, ← hy] at hnd
          simp at hnd

/-- Anything returned by `findExistingTabByUrl` is a record of the table
with the queried fingerprint that is CLOSED, and closed within the
five-minute window. -/
theorem findExistingTabByUrl_closed {db : List TrackedTab} {now : Nat}
    {urlHash sid : String} {t : TrackedTab}
    (h : findExistingTabByUrl db now urlHash sid = some t) :
    t ∈ db ∧ t.urlHash = urlHash ∧
      ∃ c, t.closedAt = some c ∧ now - 5 * 60 * 1000 < c := by
  simp only [findExistingTabByUrl] at h
  have hmem := getLast?_mem h
  rw [mem_insertionSortBy] at hmem
  have h1 := List.mem_filter.mp hmem
  have h2 := List.mem_filter.mp h1.1
  refine ⟨h2.1, by simpa using h2.2, ?_⟩
  have hcond := h1.2
  rcases hc : t.closedAt with _ | c
  · rw [hc] at hcond
    simp at hcond
  · rw [hc] at hcond
    exact ⟨c, rfl, by simpa using hcond⟩

/-- When `r` is the only record with fingerprint `F` and it closed within
the window, the candidate search returns `r`. -/
theorem findExistingTabByUrl_unique {db : List TrackedTab} {r : TrackedTab}
    {now : Nat} {F sid : String}
    (hmem : r ∈ db) (hhash : r.urlHash = F)
    (hall : ∀ t ∈ db, t.urlHash = F → t = r)
    (hnd : (db.map (fun t => t.persistentId)).Nodup)
    (hcond : ∃ c, r.closedAt = some c ∧ now - 5 * 60 * 1000 < c) :
    findExistingTabByUrl db now F sid = some r := by
  have hfil : db.filter (fun t => t.urlHash == F) = [r] := by
    apply eq_singleton_of_all_eq (fun t => t.persistentId)
    · exact List.mem_filter.mpr ⟨hmem, by simp [hhash]⟩
    · intro x hx
      have hx' := List.mem_filter.mp hx
      exact hall x hx'.1 (by simpa using hx'.2)
    · exact (((List.filter_sublist db).map _).nodup) hnd
  rcases hcond with ⟨c, hc, hlt⟩
  simp only [findExistingTabByUrl, hfil]
  simp [hc, hlt, insertionSortBy, insertBy]

/-- When every record with fingerprint `F` closed at or before the window
boundary (or is live), the candidate search returns nothing. -/
theorem findExistingTabByUrl_none {db : List TrackedTab} {now : Nat} {F sid : String}
    (hall : ∀ t ∈ db, t.urlHash = F →
      ∀ c, t.closedAt = some c → c ≤ now - 5 * 60 * 1000) :
    findExistingTabByUrl db now F sid = none := by
  have hfil : (db.filter (fun t => t.urlHash == F)).filter
      (fun t => match t.closedAt with
        | some c => decide (now - 5 * 60 * 1000 < c)
        | none => false) = [] := by
    rw [List.filter_eq_nil_iff]
    intro t ht
    have ht' := List.mem_filter.mp ht
    rcases hc : t.closedAt with _ | c
    · simp
    · have := hall t ht'.1 (by simpa using ht'.2) c hc
      simp [Nat.not_lt.mpr this]
  simp only [findExistingTabByUrl, hfil, insertionSortBy]
  rfl

/-! ## C5: five-minute resurrection window -/

/-- C5: a record `r` closed at time `T` with fingerprint `F` (and no other
record carrying `F`): reconciling a live tab with fingerprint `F` at
`T + 4min` reuses `r`'s stable id and leaves its tags, notes and cumulative
active time unchanged, while reconciling at `T + 6min` (outside the
five-minute window) mints the fresh stable id instead. -/
theorem resurrection_window_five_minutes
    (db : List TrackedTab) (r : TrackedTab) (c : ChromeTab)
    (hash : String → String) (freshId sid wpid : String) (T : Nat)
    (hmem : r ∈ db) (hhash : r.urlHash = hash c.resolvedUrl)
    (hall : ∀ t ∈ db, t.urlHash = hash c.resolvedUrl → t = r)
    (hnd : (db.map (fun t => t.persistentId)).Nodup)
    (hclosed : r.closedAt = some T) (hT : 1 ≤ T)
    (hfresh : freshId ∉ db.map (fun t => t.persistentId)) :
    ((createOrReuseTabRecord hash freshId db c sid wpid (T + 4 * 60 * 1000)).2.1.persistentId
        = r.persistentId ∧
     (createOrReuseTabRecord hash freshId db c sid wpid (T + 4 * 60 * 1000)).2.1.tags
        = r.tags ∧
     (createOrReuseTabRecord hash freshId db c sid wpid (T + 4 * 60 * 1000)).2.1.notes
        = r.notes ∧
     (createOrReuseTabRecord hash freshId db c sid wpid (T + 4 * 60 * 1000)).2.1.totalActiveTime
        = r.totalActiveTime) ∧
    ((createOrReuseTabRecord hash freshId db c sid wpid (T + 6 * 60 * 1000)).2.1.persistentId
        = freshId ∧
     (createOrReuseTabRecord hash freshId db c sid wpid (T + 6 * 60 * 1000)).2.1.persistentId
        ≠ r.persistentId) := by
  have h4 : findExistingTabByUrl db (T + 4 * 60 * 1000) (hash c.resolvedUrl) sid = some r :=
    findExistingTabByUrl_unique hmem hhash hall hnd ⟨T, hclosed, by omega⟩
  have h6 : findExistingTabByUrl db (T + 6 * 60 * 1000) (hash c.resolvedUrl) sid = none := by
    apply findExistingTabByUrl_none
    intro t ht hth c' hc'
    have := hall t ht hth
    subst this
    rw [hclosed] at hc'
    cases hc'
    omega
  constructor
  · simp only [createOrReuseTabRecord, h4]
    exact ⟨rfl, rfl, rfl, rfl⟩
  · simp only [createOrReuseTabRecord, h6]
    refine ⟨rfl, ?_⟩
    intro heq
    apply hfresh
    have : (newTabRecord freshId c (hash c.resolvedUrl) sid wpid
        (T + 6 * 60 * 1000)).persistentId = freshId := rfl
    rw [this] at heq
    rw [heq]
    exact List.mem_map.mpr ⟨r, hmem, rfl⟩

/-- C5 witness: the closed record `c5ClosedTab` (closed at `T = 1000000`)
is reused with metadata intact at `T + 4min` and a fresh id is minted at
`T + 6min`. -/
theorem resurrection_window_five_minutes_witness :
    c5ClosedTab.closedAt = some 1000000 ∧
    (((createOrReuseTabRecord c5Hash "fresh-5" [c5ClosedTab] c5Chrome "s" "w"
          (1000000 + 4 * 60 * 1000)).2.1.persistentId = c5ClosedTab.persistentId ∧
      (createOrReuseTabRecord c5Hash "fresh-5" [c5ClosedTab] c5Chrome "s" "w"
          (1000000 + 4 * 60 * 1000)).2.1.tags = c5ClosedTab.tags ∧
      (createOrReuseTabRecord c5Hash "fresh-5" [c5ClosedTab] c5Chrome "s" "w"
          (1000000 + 4 * 60 * 1000)).2.1.notes = c5ClosedTab.notes ∧
      (createOrReuseTabRecord c5Hash "fresh-5" [c5ClosedTab] c5Chrome "s" "w"
          (1000000 + 4 * 60 * 1000)).2.1.totalActiveTime = c5ClosedTab.totalActiveTime) ∧
     ((createOrReuseTabRecord c5Hash "fresh-5" [c5ClosedTab] c5Chrome "s" "w"
          (1000000 + 6 * 60 * 1000)).2.1.persistentId = "fresh-5" ∧
      (createOrReuseTabRecord c5Hash "fresh-5" [c5ClosedTab] c5Chrome "s" "w"
          (1000000 + 6 * 60 * 1000)).2.1.persistentId ≠ c5ClosedTab.persistentId)) :=
  ⟨by decide,
   resurrection_window_five_minutes [c5ClosedTab] c5ClosedTab c5Chrome c5Hash
     "fresh-5" "s" "w" 1000000 (by decide) (by decide) (by decide) (by decide)
     (by decide) (by decide) (by decide)⟩

/-! ## C1: reconciliation never merges live tabs -/

theorem map_pid_replace (db : List TrackedTab) (e u : TrackedTab)
    (hu : u.persistentId = e.persistentId) :
    (db.map (fun t => if t.persistentId = e.persistentId then u else t)).map
        (fun t => t.persistentId) = db.map (fun t => t.persistentId) := by
  rw [List.map_map]
  apply List.map_congr_left
  intro t _
  by_cases h : t.persistentId = e.persistentId
  · simp [Function.comp, h, hu]
  · simp [Function.comp, h]

/-- Across one sequential reconciliation pass, the assigned stable ids are
pairwise distinct, and each assigned id is either the id of a record that
was CLOSED in the database the pass step started from, or a freshly minted
identifier. -/
theorem reconcilePass_spec (hash : String → String) (uuid : Nat → String)
    (sid wpid : String) (now : Nat)
    (hinj : ∀ i j, uuid i = uuid j → i = j) :
    ∀ (tabs : List ChromeTab) (db : List TrackedTab) (k : Nat),
      (db.map (fun t => t.persistentId)).Nodup →
      (∀ i, k ≤ i → uuid i ∉ db.map (fun t => t.persistentId)) →
      (reconcilePass hash uuid sid wpid now tabs db k).2.Nodup ∧
      (∀ a ∈ (reconcilePass hash uuid sid wpid now tabs db k).2,
        (∃ t ∈ db, t.persistentId = a ∧ t.closedAt ≠ none) ∨ ∃ i, k ≤ i ∧ a = uuid i) := by
  intro tabs
  induction tabs with
  | nil =>
      intro db k _ _
      constructor
      · simp [reconcilePass]
      · intro a ha
        simp [reconcilePass] at ha
  | cons c rest ih =>
      intro db k hnd hfresh
      rcases hfind : findExistingTabByUrl db now (hash c.resolvedUrl) sid with _ | e
      · -- mint branch
        have hstep : createOrReuseTabRecord hash (uuid k) db c sid wpid now
            = (db ++ [newTabRecord (uuid k) c (hash c.resolvedUrl) sid wpid now],
               newTabRecord (uuid k) c (hash c.resolvedUrl) sid wpid now, true) := by
          simp [createOrReuseTabRecord, hfind]
        have hrec : reconcilePass hash uuid sid wpid now (c :: rest) db k
            = ((reconcilePass hash uuid sid wpid now rest
                  (db ++ [newTabRecord (uuid k) c (hash c.resolvedUrl) sid wpid now])
                  (k + 1)).1,
               uuid k :: (reconcilePass hash uuid sid wpid now rest
                  (db ++ [newTabRecord (uuid k) c (hash c.resolvedUrl) sid wpid now])
                  (k + 1)).2) := by
          simp only [reconcilePass, hstep]
          rfl
        have hids : (db ++ [newTabRecord (uuid k) c (hash c.resolvedUrl) sid wpid now]).map
            (fun t => t.persistentId) = db.map (fun t => t.persistentId) ++ [uuid k] := by
          simp [newTabRecord]
        have hnd' : ((db ++ [newTabRecord (uuid k) c (hash c.resolvedUrl) sid wpid now]).map
            (fun t => t.persistentId)).Nodup := by
          rw [hids, List.nodup_append]
          refine ⟨hnd, List.nodup_singleton _, ?_⟩
          intro x hx hx'
          rw [List.mem_singleton] at hx'
          subst hx'
          exact hfresh k (le_refl k) hx
        have hfresh' : ∀ i, k + 1 ≤ i →
            uuid i ∉ (db ++ [newTabRecord (uuid k) c (hash c.resolvedUrl) sid wpid now]).map
              (fun t => t.persistentId) := by
          intro i hi
          rw [hids, List.mem_append, List.mem_singleton]
          push_neg
          refine ⟨hfresh i (by omega), fun h => ?_⟩
          have := hinj i k h
          omega
        obtain ⟨hnodR, hspecR⟩ := ih _ (k + 1) hnd' hfresh'
        rw [hrec]
        constructor
        · rw [List.nodup_cons]
          refine ⟨?_, hnodR⟩
          intro hmem
          rcases hspecR (uuid k) hmem with ⟨t, ht, hpid, hcl⟩ | ⟨i, hi, heq⟩
          · rcases List.mem_append.mp ht with ht' | ht'
            · exact hfresh k (le_refl k) (List.mem_map.mpr ⟨t, ht', hpid⟩)
            · rw [List.mem_singleton] at ht'
              subst ht'
              exact hcl rfl
          · have := hinj k i heq
            omega
        · intro a ha
          rcases List.mem_cons.mp ha with rfl | ha
          · exact Or.inr ⟨k, le_refl k, rfl⟩
          · rcases hspecR a ha with ⟨t, ht, hpid, hcl⟩ | ⟨i, hi, heq⟩
            · rcases List.mem_append.mp ht with ht' | ht'
              · exact Or.inl ⟨t, ht', hpid, hcl⟩
              · rw [List.mem_singleton] at ht'
                subst ht'
                exact absurd rfl hcl
            · exact Or.inr ⟨i, by omega, heq⟩
      · -- resurrection branch
        have hE := findExistingTabByUrl_closed hfind
        have hstep : createOrReuseTabRecord hash (uuid k) db c sid wpid now
            = (db.map (fun t => if t.persistentId = e.persistentId
                 then applyReuseUpdate c sid wpid now e else t),
               applyReuseUpdate c sid wpid now e, false) := by
          simp [createOrReuseTabRecord, hfind]
        have hrec : reconcilePass hash uuid sid wpid now (c :: rest) db k
            = ((reconcilePass hash uuid sid wpid now rest
                  (db.map (fun t => if t.persistentId = e.persistentId
                    then applyReuseUpdate c sid wpid now e else t)) k).1,
               e.persistentId :: (reconcilePass hash uuid sid wpid now rest
                  (db.map (fun t => if t.persistentId = e.persistentId
                    then applyReuseUpdate c sid wpid now e else t)) k).2) := by
          simp only [reconcilePass, hstep]
          rfl
        have hids : ((db.map (fun t => if t.persistentId = e.persistentId
              then applyReuseUpdate c sid wpid now e else t)).map
            (fun t => t.persistentId)) = db.map (fun t => t.persistentId) :=
          map_pid_replace db e _ rfl
        have hnd' := hids ▸ hnd
        have hfresh' : ∀ i, k ≤ i →
            uuid i ∉ (db.map (fun t => if t.persistentId = e.persistentId
              then applyReuseUpdate c sid wpid now e else t)).map
                (fun t => t.persistentId) := by
          intro i hi
          rw [hids]
          exact hfresh i hi
        obtain ⟨hnodR, hspecR⟩ := ih _ k hnd' hfresh'
        rw [hrec]
        constructor
        · rw [List.nodup_cons]
          refine ⟨?_, hnodR⟩
          intro hmem
          rcases hspecR _ hmem with ⟨t, ht, hpid, hcl⟩ | ⟨i, hi, heq⟩
          · rcases List.mem_map.mp ht with ⟨t₀, ht₀, hrepl⟩
            by_cases h0 : t₀.persistentId = e.persistentId
            · rw [if_pos h0] at hrepl
              subst hrepl
              exact hcl rfl
            · rw [if_neg h0] at hrepl
              subst hrepl
              exact h0 hpid
          · apply hfresh i hi
            rw [← heq]
            exact List.mem_map.mpr ⟨e, hE.1, rfl⟩
        · intro a ha
          rcases List.mem_cons.mp ha with rfl | ha
          · refine Or.inl ⟨e, hE.1, rfl, ?_⟩
            rcases hE.2.2 with ⟨c', hc', _⟩
            simp [hc']
          · rcases hspecR a ha with ⟨t, ht, hpid, hcl⟩ | h
            · rcases List.mem_map.mp ht with ⟨t₀, ht₀, hrepl⟩
              by_cases h0 : t₀.persistentId = e.persistentId
              · rw [if_pos h0] at hrepl
                subst hrepl
                exact absurd rfl hcl
              · rw [if_neg h0] at hrepl
                subst hrepl
                exact Or.inl ⟨t₀, ht₀, hpid, hcl⟩
            · exact Or.inr h

/-- C1: the fingerprint-based candidate search only ever returns records
with `closedAt ≠ null`, and consequently a full reconciliation pass over
any enumeration of live tabs — including two live tabs sharing one URL
fingerprint — assigns pairwise distinct stable ids (no silent merge of two
live objects). -/
theorem reconciliation_never_merges_live_tabs
    (hash : String → String) (uuid : Nat → String) (db : List TrackedTab)
    (tabs : List ChromeTab) (sid wpid : String) (now k : Nat)
    (hinj : ∀ i j, uuid i = uuid j → i = j)
    (hnd : (db.map (fun t => t.persistentId)).Nodup)
    (hfresh : ∀ i, k ≤ i → uuid i ∉ db.map (fun t => t.persistentId)) :
    (∀ (db₀ : List TrackedTab) (h₀ : String) (t : TrackedTab),
        findExistingTabByUrl db₀ now h₀ sid = some t → t.closedAt ≠ none) ∧
    (reconcilePass hash uuid sid wpid now tabs db k).2.Nodup := by
  constructor
  · intro db₀ h₀ t ht
    rcases (findExistingTabByUrl_closed ht).2.2 with ⟨c', hc', _⟩
    simp [hc']
  · exact (reconcilePass_spec hash uuid sid wpid now hinj tabs db k hnd hfresh).1

/-- C1 witness: two simultaneously live tabs with one shared fingerprint,
reconciled against a table holding one recently-closed record with the same
fingerprint, end the pass with distinct stable ids. -/
theorem reconciliation_never_merges_live_tabs_witness :
    (c1Db.map (fun t => t.persistentId)).Nodup ∧
    (reconcilePass c5Hash uuidSupply "s" "w" 1000000 c1Tabs c1Db 0).2.Nodup :=
  ⟨by decide,
   (reconciliation_never_merges_live_tabs c5Hash uuidSupply c1Db c1Tabs "s" "w" 1000000 0
      (by
        intro i j h
        have hl := congrArg String.length h
        simpa [uuidSupply, String.length] using hl)
      (by decide)
      (by
        intro i _ h
        simp only [c1Db, baseTab, List.map, List.mem_singleton] at h
        have hd := congrArg String.data h
        simp [uuidSupply] at hd)).2⟩

/-! ## C7: duplicate compaction -/

theorem mem_dedupKeepFirst {x : String} :
    ∀ {l seen : List String}, x ∈ dedupKeepFirst seen l ↔ x ∈ l ∧ x ∉ seen := by
  intro l
  induction l with
  | nil => intro seen; simp [dedupKeepFirst]
  | cons t rest ih =>
      intro seen
      simp only [dedupKeepFirst]
      split
      · rename_i hseen
        rw [ih]
        constructor
        · rintro ⟨h1, h2⟩
          exact ⟨List.mem_cons_of_mem t h1, h2⟩
        · rintro ⟨h1, h2⟩
          rcases List.mem_cons.mp h1 with rfl | h1
          · exact absurd hseen h2
          · exact ⟨h1, h2⟩
      · rename_i hseen
        constructor
        · intro h
          rcases List.mem_cons.mp h with rfl | h
          · exact ⟨List.mem_cons_self x rest, hseen⟩
          · rcases ih.mp h with ⟨h1, h2⟩
            simp only [List.mem_cons, not_or] at h2
            exact ⟨List.mem_cons_of_mem t h1, h2.2⟩
        · rintro ⟨h1, h2⟩
          rcases List.mem_cons.mp h1 with rfl | h1
          · exact List.mem_cons_self x _
          · by_cases hxt : x = t
            · subst hxt
              exact List.mem_cons_self x _
            · exact List.mem_cons_of_mem t (ih.mpr ⟨h1, by simp [hxt, h2]⟩)

theorem mem_closedGroup {db : List TrackedTab} {h : String} {t : TrackedTab} :
    t ∈ closedGroup db h ↔ t ∈ db ∧ isClosed t ∧ t.urlHash = h := by
  simp only [closedGroup, closedTabs, List.mem_filter]
  constructor
  · rintro ⟨⟨h1, h2⟩, h3⟩
    exact ⟨h1, h2, by simpa using h3⟩
  · rintro ⟨h1, h2, h3⟩
    exact ⟨⟨h1, h2⟩, by simpa using h3⟩

theorem hash_mem_groupHashes {db : List TrackedTab} {t : TrackedTab}
    (ht : t ∈ db) (hc : isClosed t) : t.urlHash ∈ groupHashes db := by
  rw [groupHashes, mem_dedupKeepFirst]
  refine ⟨List.mem_map.mpr ⟨t, ?_, rfl⟩, by simp⟩
  exact List.mem_filter.mpr ⟨ht, hc⟩

theorem mem_deletedInGroup_closedGroup {db : List TrackedTab} {h : String}
    {t : TrackedTab} (ht : t ∈ deletedInGroup db h) : t ∈ closedGroup db h := by
  have h1 : t ∈ sortGroupDesc (closedGroup db h) :=
    (List.drop_sublist 1 _).subset ht
  rw [sortGroupDesc, mem_insertionSortBy] at h1
  exact h1

theorem mem_deletedIds {db : List TrackedTab} {p : String} :
    p ∈ deletedIds db ↔
      ∃ h ∈ groupHashes db, ∃ t ∈ deletedInGroup db h, t.persistentId = p := by
  simp [deletedIds, List.mem_flatMap, List.mem_map]

theorem deletedIds_closed {db : List TrackedTab} {p : String}
    (hp : p ∈ deletedIds db) :
    ∃ t ∈ db, t.persistentId = p ∧ isClosed t := by
  rcases mem_deletedIds.mp hp with ⟨h, _, t, ht, hpt⟩
  have := mem_closedGroup.mp (mem_deletedInGroup_closedGroup ht)
  exact ⟨t, this.1, hpt, this.2.1⟩

theorem nodup_pid_closedGroup {db : List TrackedTab} {h : String}
    (hnd : (db.map (fun t => t.persistentId)).Nodup) :
    ((closedGroup db h).map (fun t => t.persistentId)).Nodup := by
  have hsub : (closedGroup db h).Sublist db :=
    ((List.filter_sublist _).trans (List.filter_sublist _))
  exact (hsub.map _).nodup hnd

theorem sortGroupDesc_total (a b : TrackedTab) :
    (decide (b.lastActivatedAt ≤ a.lastActivatedAt) ||
     decide (a.lastActivatedAt ≤ b.lastActivatedAt)) = true := by
  rcases Nat.le_total b.lastActivatedAt a.lastActivatedAt with h | h <;> simp [h]

theorem sortGroupDesc_trans (a b c : TrackedTab)
    (h1 : decide (b.lastActivatedAt ≤ a.lastActivatedAt) = true)
    (h2 : decide (c.lastActivatedAt ≤ b.lastActivatedAt) = true) :
    decide (c.lastActivatedAt ≤ a.lastActivatedAt) = true := by
  simp only [decide_eq_true_eq] at h1 h2 ⊢
  omega

theorem closedGroup_filter (db : List TrackedTab) (q : TrackedTab → Bool) (h : String) :
    closedGroup (db.filter q) h = (closedGroup db h).filter q := by
  simp only [closedGroup, closedTabs, List.filter_filter]
  apply List.filter_congr
  intro t _
  cases hq : q t <;> cases hc : isClosed t <;> cases hh : (t.urlHash == h) <;> simp

/-- Each fingerprint group of closed records retains at most one member
after the sweep. -/
theorem closedGroup_after_cleanup_le_one (db : List TrackedTab)
    (hnd : (db.map (fun t => t.persistentId)).Nodup) (h : String) :
    (closedGroup (cleanupDuplicateTabs db).1 h).length ≤ 1 := by
  have hrw : closedGroup (cleanupDuplicateTabs db).1 h
      = (closedGroup db h).filter (fun t => ¬ t.persistentId ∈ deletedIds db) := by
    simp only [cleanupDuplicateTabs]
    exact closedGroup_filter db _ h
  rw [hrw]
  rcases hs : sortGroupDesc (closedGroup db h) with _ | ⟨hd, tl⟩
  · have hlen : (closedGroup db h).length = 0 := by
      have := (perm_insertionSortBy
        (fun a b => decide (b.lastActivatedAt ≤ a.lastActivatedAt))
        (closedGroup db h)).length_eq
      rw [sortGroupDesc] at hs
      rw [← this, hs]
      rfl
    rw [List.length_eq_zero.mp hlen]
    simp
  · apply length_le_one_of_all_eq (fun t => t.persistentId)
      (r := hd)
    · intro x hx
      rcases List.mem_filter.mp hx with ⟨hxg, hxs⟩
      have hxsort : x ∈ sortGroupDesc (closedGroup db h) := by
        rw [sortGroupDesc, mem_insertionSortBy]
        exact hxg
      rw [hs] at hxsort
      rcases List.mem_cons.mp hxsort with rfl | hxtl
      · rfl
      · exfalso
        have hxdel : x.persistentId ∈ deletedIds db := by
          apply mem_deletedIds.mpr
          refine ⟨h, ?_, x, ?_, rfl⟩
          · have := mem_closedGroup.mp hxg
            rw [← this.2.2]
            exact hash_mem_groupHashes this.1 this.2.1
          · rw [deletedInGroup, hs]
            simpa using hxtl
        simp only [decide_eq_true_eq] at hxs
        exact hxs hxdel
    · exact ((List.filter_sublist _).map _).nodup (nodup_pid_closedGroup hnd)

/-- C7: the duplicate-compaction sweep never deletes a live record; every
record it deletes is closed and dominated by a surviving closed record of
the same fingerprint with at-least-as-recent activity; and a second run of
the sweep deletes zero records and leaves the table unchanged. -/
theorem cleanup_duplicates_closed_only_idempotent (db : List TrackedTab)
    (hnd : (db.map (fun t => t.persistentId)).Nodup) :
    (∀ t ∈ db, t.closedAt = none → t ∈ (cleanupDuplicateTabs db).1) ∧
    (∀ t ∈ db, t ∉ (cleanupDuplicateTabs db).1 →
      t.closedAt ≠ none ∧
      ∃ kp ∈ (cleanupDuplicateTabs db).1,
        kp.urlHash = t.urlHash ∧ kp.closedAt ≠ none ∧
        t.lastActivatedAt ≤ kp.lastActivatedAt) ∧
    (cleanupDuplicateTabs (cleanupDuplicateTabs db).1).2 = 0 ∧
    (cleanupDuplicateTabs (cleanupDuplicateTabs db).1).1 = (cleanupDuplicateTabs db).1 := by
  have hinj := List.inj_on_of_nodup_map hnd
  have hlive : ∀ t ∈ db, t.closedAt = none → t ∈ (cleanupDuplicateTabs db).1 := by
    intro t ht hl
    apply List.mem_filter.mpr
    refine ⟨ht, ?_⟩
    simp only [decide_eq_true_eq]
    intro hp
    rcases deletedIds_closed hp with ⟨d, hd, hdp, hdc⟩
    have : d = t := hinj hd ht hdp
    subst this
    rw [isClosed, hl] at hdc
    simp at hdc
  have hdel2 : ∀ h', deletedInGroup (cleanupDuplicateTabs db).1 h' = [] := by
    intro h'
    rw [deletedInGroup, List.drop_eq_nil_iff]
    have hp := (perm_insertionSortBy
      (fun a b => decide (b.lastActivatedAt ≤ a.lastActivatedAt))
      (closedGroup (cleanupDuplicateTabs db).1 h')).length_eq
    rw [sortGroupDesc, hp]
    exact closedGroup_after_cleanup_le_one db hnd h'
  have hids2 : deletedIds (cleanupDuplicateTabs db).1 = [] := by
    rw [deletedIds, List.flatMap_eq_nil_iff]
    intro h' _
    rw [hdel2 h']
    rfl
  refine ⟨hlive, ?_, ?_, ?_⟩
  · -- every deleted record is closed and dominated by the kept record
    intro t ht htout
    have hdel : t.persistentId ∈ deletedIds db := by
      by_contra hp
      exact htout (List.mem_filter.mpr ⟨ht, by simpa using hp⟩)
    rcases mem_deletedIds.mp hdel with ⟨h, _, d, hd, hdp⟩
    have hdg := mem_closedGroup.mp (mem_deletedInGroup_closedGroup hd)
    have hdt : d = t := hinj hdg.1 ht hdp
    subst hdt
    have hclosed : d.closedAt ≠ none := by
      have := hdg.2.1
      rw [isClosed] at this
      intro hnone
      rw [hnone] at this
      simp at this
    refine ⟨hclosed, ?_⟩
    rcases hs : sortGroupDesc (closedGroup db h) with _ | ⟨hd0, tl⟩
    · exfalso
      rw [deletedInGroup, hs] at hd
      simp at hd
    · have hd0g : hd0 ∈ closedGroup db h := by
        have : hd0 ∈ sortGroupDesc (closedGroup db h) := by
          rw [hs]
          exact List.mem_cons_self _ _
        rw [sortGroupDesc, mem_insertionSortBy] at this
        exact this
      have hd0db := mem_closedGroup.mp hd0g
      have hd0closed : hd0.closedAt ≠ none := by
        have := hd0db.2.1
        rw [isClosed] at this
        intro hnone
        rw [hnone] at this
        simp at this
      have hdtl : d ∈ tl := by
        rw [deletedInGroup, hs] at hd
        simpa using hd
      -- the kept head survives the sweep
      have hd0in : hd0 ∈ (cleanupDuplicateTabs db).1 := by
        apply List.mem_filter.mpr
        refine ⟨hd0db.1, ?_⟩
        simp only [decide_eq_true_eq]
        intro hp
        rcases mem_deletedIds.mp hp with ⟨h', _, d', hd', hdp'⟩
        have hd'g := mem_closedGroup.mp (mem_deletedInGroup_closedGroup hd')
        have heq : d' = hd0 := hinj hd'g.1 hd0db.1 hdp'
        have hh' : h' = h := by
          rw [← hd'g.2.2, heq, hd0db.2.2]
        rw [heq, hh'] at hd'
        rw [deletedInGroup, hs] at hd'
        simp only [List.drop_succ_cons, List.drop_zero] at hd'
        -- hd0 would be both the head and in the tail, contradicting nodup ids
        have hnods : ((hd0 :: tl).map (fun t => t.persistentId)).Nodup := by
          have hperm := (perm_insertionSortBy
            (fun a b => decide (b.lastActivatedAt ≤ a.lastActivatedAt))
            (closedGroup db h)).map (fun t => t.persistentId)
          rw [sortGroupDesc] at hs
          rw [hs] at hperm
          exact hperm.nodup_iff.mpr (nodup_pid_closedGroup hnd)
        rcases List.nodup_cons.mp hnods with ⟨hnotin, _⟩
        exact hnotin (List.mem_map.mpr ⟨hd0, hd', rfl⟩)
      have hle : d.lastActivatedAt ≤ hd0.lastActivatedAt := by
        have hpw := pairwise_insertionSortBy sortGroupDesc_total sortGroupDesc_trans
          (closedGroup db h)
        rw [← sortGroupDesc, hs] at hpw
        have := (List.pairwise_cons.mp hpw).1 d hdtl
        simpa using this
      refine ⟨hd0, hd0in, ?_, hd0closed, hle⟩
      rw [hd0db.2.2, hdg.2.2]
  · -- a second sweep deletes zero records
    have hcount : (cleanupDuplicateTabs (cleanupDuplicateTabs db).1).2
        = ((groupHashes (cleanupDuplicateTabs db).1).map
            (fun h => (deletedInGroup (cleanupDuplicateTabs db).1 h).length)).sum := rfl
    rw [hcount]
    apply List.sum_eq_zero
    intro x hx
    rcases List.mem_map.mp hx with ⟨h', _, rfl⟩
    rw [hdel2 h']
    rfl
  · -- and leaves the table unchanged
    have : (cleanupDuplicateTabs (cleanupDuplicateTabs db).1).1
        = ((cleanupDuplicateTabs db).1).filter
            (fun t => ¬ t.persistentId ∈ deletedIds (cleanupDuplicateTabs db).1) := rfl
    rw [this, List.filter_eq_self]
    intro t _
    rw [hids2]
    simp

/-- C7 witness: on a table with two closed duplicates and one live record
sharing a fingerprint, the live record survives the sweep and a second
sweep deletes zero records. -/
theorem cleanup_duplicates_closed_only_idempotent_witness :
    (c7Db.map (fun t => t.persistentId)).Nodup ∧
    baseTab "live-c" ∈ (cleanupDuplicateTabs c7Db).1 ∧
    (cleanupDuplicateTabs (cleanupDuplicateTabs c7Db).1).2 = 0 :=
  ⟨by decide,
   (cleanup_duplicates_closed_only_idempotent c7Db (by decide)).1
     (baseTab "live-c") (by decide) rfl,
   (cleanup_duplicates_closed_only_idempotent c7Db (by decide)).2.2.1⟩

/-! ## C9: at most one open visit interval per tab -/

theorem openFor_iff {id : String} {v : TabVisit} :
    openFor id v = true ↔ v.tabPersistentId = id ∧ v.deactivatedAt = none := by
  simp [openFor]

theorem openCount_eq_countP (vs : List TabVisit) (id : String) :
    openCount vs id = vs.countP (openFor id) :=
  (List.countP_eq_length_filter _ _).symm

theorem openCount_pos_iff {vs : List TabVisit} {id : String} :
    0 < openCount vs id ↔ ∃ v ∈ vs, openFor id v = true := by
  rw [openCount_eq_countP]
  exact List.countP_pos_iff

theorem openCount_closeLastOpen_other {id' id : String} (hne : id' ≠ id) (t : Nat) :
    ∀ vs : List TabVisit, openCount (closeLastOpen id t vs) id' = openCount vs id' := by
  intro vs
  induction vs with
  | nil => rfl
  | cons v vs ih =>
      simp only [closeLastOpen]
      split
      · simp only [openCount_eq_countP, List.countP_cons] at ih ⊢
        omega
      · split
        · rename_i hopen
          have hvtab : v.tabPersistentId = id := (openFor_iff.mp hopen).1
          have h2 : openFor id' v = false := by
            simp [openFor, hvtab, Ne.symm hne]
          simp [openFor, openCount_eq_countP, List.countP_cons, h2]
          intro h
          exact absurd (hvtab.symm.trans h) (Ne.symm hne)
        · rfl

theorem openCount_closeLastOpen_le (id : String) (t : Nat) :
    ∀ vs : List TabVisit, openCount (closeLastOpen id t vs) id ≤ openCount vs id := by
  intro vs
  induction vs with
  | nil => exact Nat.le_refl _
  | cons v vs ih =>
      simp only [closeLastOpen]
      split
      · simp only [openCount_eq_countP, List.countP_cons] at ih ⊢
        omega
      · split
        · rename_i hopen
          simp [openFor, openCount_eq_countP, List.countP_cons]
        · exact Nat.le_refl _

theorem openCount_closeLastOpen_pos (id : String) (t : Nat) :
    ∀ vs : List TabVisit, 0 < openCount vs id →
      openCount (closeLastOpen id t vs) id + 1 = openCount vs id := by
  intro vs
  induction vs with
  | nil => intro h; simp [openCount] at h
  | cons v vs ih =>
      intro hpos
      simp only [closeLastOpen]
      split
      · rename_i hany
        have htail : 0 < openCount vs id := by
          rw [openCount_pos_iff]
          simpa [List.any_eq_true] using hany
        have hih := ih htail
        simp only [openCount_eq_countP, List.countP_cons] at hih ⊢
        omega
      · split
        · rename_i hany hopen
          obtain ⟨hta, hde⟩ := openFor_iff.mp hopen
          simp [openFor, openCount_eq_countP, List.countP_cons, hta, hde]
        · rename_i hany hopen
          exfalso
          have h1 : openCount vs id = 0 := by
            rw [openCount_eq_countP, List.countP_eq_zero]
            intro a ha hopa
            exact hany (List.any_eq_true.mpr ⟨a, ha, hopa⟩)
          simp only [openCount_eq_countP, List.countP_cons] at hpos
          rw [openCount_eq_countP] at h1
          simp [h1, hopen] at hpos

theorem openCount_closeLastOpen_zero {vs : List TabVisit} {id : String} (t : Nat)
    (h : openCount vs id ≤ 1) : openCount (closeLastOpen id t vs) id = 0 := by
  rcases Nat.eq_zero_or_pos (openCount vs id) with h0 | hpos
  · have := openCount_closeLastOpen_le id t vs
    omega
  · have := openCount_closeLastOpen_pos id t vs hpos
    omega

theorem mem_closeLastOpen {v' : TabVisit} {id : String} {t : Nat} :
    ∀ {vs : List TabVisit}, v' ∈ closeLastOpen id t vs →
      v' ∈ vs ∨ v'.deactivatedAt = some t := by
  intro vs
  induction vs with
  | nil => intro h; cases h
  | cons v vs ih =>
      intro h
      simp only [closeLastOpen] at h
      split at h
      · rcases List.mem_cons.mp h with rfl | h
        · exact Or.inl (List.mem_cons_self _ _)
        · rcases ih h with h' | h'
          · exact Or.inl (List.mem_cons_of_mem _ h')
          · exact Or.inr h'
      · split at h
        · rcases List.mem_cons.mp h with rfl | h
          · exact Or.inr rfl
          · exact Or.inl (List.mem_cons_of_mem _ h)
        · exact Or.inl h


theorem createVisit_spec (s : TrackerState) (tab : String) (fromT : Option String)
    (wpid : Option String) (t0 : Nat) :
    (createVisit s tab fromT wpid t0).tabs = s.tabs ∧
    (createVisit s tab fromT wpid t0).activeTabPersistentId = s.activeTabPersistentId ∧
    (createVisit s tab fromT wpid t0).tabActivationTimestamp = s.tabActivationTimestamp ∧
    (createVisit s tab fromT wpid t0).tabIdCache = s.tabIdCache ∧
    ((createVisit s tab fromT wpid t0).visits = s.visits ∨
      ∃ nv : TabVisit, (createVisit s tab fromT wpid t0).visits = s.visits ++ [nv] ∧
        nv.tabPersistentId = tab ∧ nv.deactivatedAt = none) := by
  obtain ⟨vis, tbs, sess, act, ts, cache⟩ := s
  rcases sess with _ | sid
  · exact ⟨rfl, rfl, rfl, rfl, Or.inl rfl⟩
  · rcases hf : tbs.find? (fun t => t.persistentId == tab) with _ | tb
    · refine ⟨?_, ?_, ?_, ?_, Or.inl ?_⟩ <;> simp [createVisit, hf]
    · refine ⟨?_, ?_, ?_, ?_, Or.inr
        ⟨⟨tab, sid, tb.url, tb.urlHash, tb.title, t0, none, 0, wpid.getD "", fromT⟩,
         ?_, rfl, rfl⟩⟩ <;> simp [createVisit, hf]

theorem no_open_of_counts_zero {vs : List TabVisit}
    (h : ∀ id, openCount vs id = 0) :
    ∀ v ∈ vs, v.deactivatedAt ≠ none := by
  intro v hv hde
  have : 0 < openCount vs v.tabPersistentId :=
    openCount_pos_iff.mpr ⟨v, hv, openFor_iff.mpr ⟨rfl, hde⟩⟩
  rw [h v.tabPersistentId] at this
  exact Nat.lt_irrefl 0 this

theorem openCount_append (l1 l2 : List TabVisit) (id : String) :
    openCount (l1 ++ l2) id = openCount l1 id + openCount l2 id := by
  simp [openCount_eq_countP, List.countP_append]

theorem trackerInv_cleared (vis2 : List TabVisit) (tbs2 : List TrackedTab)
    (sess2 : Option String) (cache2 : List (Nat × String))
    (hzero : ∀ id, openCount vis2 id = 0) :
    TrackerInv ⟨vis2, tbs2, sess2, none, 0, cache2⟩ := by
  refine ⟨?_, ?_, ?_⟩
  · intro id
    show openCount vis2 id ≤ 1
    rw [hzero id]
    exact Nat.zero_le 1
  · intro v hv hde
    exact absurd hde (no_open_of_counts_zero hzero v hv)
  · intro h
    exact absurd rfl h

theorem trackerInv_activated_final (vis2 : List TabVisit) (tbs2 : List TrackedTab)
    (sess2 : Option String) (act2 : Option String) (ts2 : Nat)
    (cache2 : List (Nat × String)) (newId : String) (prevT wpid : Option String)
    (now : Nat) (hnow : 0 < now) (hzero : ∀ id, openCount vis2 id = 0) :
    TrackerInv { createVisit ⟨vis2, tbs2, sess2, act2, ts2, cache2⟩ newId prevT wpid now with
                 activeTabPersistentId := some newId, tabActivationTimestamp := now } := by
  obtain ⟨hcTabs, hcAct, hcTs, hcCache, hcVis⟩ :=
    createVisit_spec ⟨vis2, tbs2, sess2, act2, ts2, cache2⟩ newId prevT wpid now
  rcases hcVis with hsame | ⟨nv, happ, hnvtab, hnvde⟩
  · refine ⟨?_, ?_, ?_⟩
    · intro id
      show openCount (createVisit ⟨vis2, tbs2, sess2, act2, ts2, cache2⟩
        newId prevT wpid now).visits id ≤ 1
      rw [hsame]
      show openCount vis2 id ≤ 1
      rw [hzero id]
      exact Nat.zero_le 1
    · intro v hv hde
      show _ = some v.tabPersistentId
      exfalso
      have hv' : v ∈ vis2 := by
        have : v ∈ (createVisit ⟨vis2, tbs2, sess2, act2, ts2, cache2⟩
            newId prevT wpid now).visits := hv
        rw [hsame] at this
        exact this
      exact absurd hde (no_open_of_counts_zero hzero v hv')
    · intro _
      exact hnow
  · refine ⟨?_, ?_, ?_⟩
    · intro id
      show openCount (createVisit ⟨vis2, tbs2, sess2, act2, ts2, cache2⟩
        newId prevT wpid now).visits id ≤ 1
      rw [happ, openCount_append, hzero id]
      have hle := List.length_filter_le (openFor id) [nv]
      simp only [List.length_cons, List.length_nil] at hle
      show 0 + openCount [nv] id ≤ 1
      rw [openCount]
      omega
    · intro v hv hde
      have hv' : v ∈ vis2 ++ [nv] := by
        have : v ∈ (createVisit ⟨vis2, tbs2, sess2, act2, ts2, cache2⟩
            newId prevT wpid now).visits := hv
        rw [happ] at this
        exact this
      rcases List.mem_append.mp hv' with hvin | hvnv
      · exact absurd hde (no_open_of_counts_zero hzero v hvin)
      · rw [List.mem_singleton] at hvnv
        subst hvnv
        show some newId = some v.tabPersistentId
        rw [hnvtab]
    · intro _
      exact hnow

theorem trackerInv_handleTabActivated {s : TrackerState} (inv : TrackerInv s)
    (tabId : Nat) (wpid : Option String) {now : Nat} (hnow : 0 < now) :
    TrackerInv (handleTabActivated s tabId wpid now) := by
  obtain ⟨vis, tbs, sess, act, ts, cache⟩ := s
  obtain ⟨inv1, inv2, inv3⟩ := inv
  rcases sess with _ | sid
  · exact ⟨inv1, inv2, inv3⟩
  · rcases act with _ | prev
    · -- no previously active tab: by the invariant there are no open visits
      have hzero : ∀ id, openCount vis id = 0 := by
        intro id
        by_contra h
        rcases openCount_pos_iff.mp (Nat.pos_of_ne_zero h) with ⟨v, hv, hop⟩
        have habs := inv2 v hv (openFor_iff.mp hop).2
        simp at habs
      simp only [handleTabActivated]
      cases hlook : List.lookup tabId cache with
      | none =>
          exact trackerInv_cleared vis tbs (some sid) cache hzero
      | some newId =>
          exact trackerInv_activated_final vis
            (modifyTab tbs newId (fun t =>
              { t with lastActivatedAt := now, updatedAt := now }))
            (some sid) none ts cache newId none wpid now hnow hzero
    · -- a previous tab was active: its open visit is closed first
      have hts : 0 < ts := inv3 (by simp)
      have hz1 : ∀ id, openCount (closeLastOpen prev now vis) id = 0 := by
        intro id
        by_cases hid : id = prev
        · subst hid
          exact openCount_closeLastOpen_zero now (inv1 id)
        · rw [openCount_closeLastOpen_other hid now vis]
          by_contra h
          rcases openCount_pos_iff.mp (Nat.pos_of_ne_zero h) with ⟨v, hv, hop⟩
          have habs := inv2 v hv (openFor_iff.mp hop).2
          have htab := (openFor_iff.mp hop).1
          rw [htab] at habs
          simp only [Option.some_inj] at habs
          exact hid habs.symm
      simp only [handleTabActivated]
      rw [if_pos hts]
      cases hlook : List.lookup tabId cache with
      | none =>
          exact trackerInv_cleared (closeLastOpen prev now vis)
            (modifyTab tbs prev (fun t =>
              { t with totalActiveTime := t.totalActiveTime + (now - ts), updatedAt := now }))
            (some sid) cache hz1
      | some newId =>
          exact trackerInv_activated_final (closeLastOpen prev now vis)
            (modifyTab (modifyTab tbs prev (fun t =>
              { t with totalActiveTime := t.totalActiveTime + (now - ts), updatedAt := now }))
              newId (fun t => { t with lastActivatedAt := now, updatedAt := now }))
            (some sid) (some prev) ts cache newId (some prev) wpid now hnow hz1

theorem trackerInv_handleTabRemoved {s : TrackerState} (inv : TrackerInv s)
    (tabId : Nat) {now : Nat} (hnow : 0 < now) :
    TrackerInv (handleTabRemoved s tabId now) := by
  obtain ⟨vis, tbs, sess, act, ts, cache⟩ := s
  obtain ⟨inv1, inv2, inv3⟩ := inv
  simp only [handleTabRemoved]
  cases hlook : List.lookup tabId cache with
  | none => exact ⟨inv1, inv2, inv3⟩
  | some pid =>
      split
      · rename_i heq
        exact absurd heq (by simp)
      rename_i pid' heq
      obtain rfl : pid = pid' := Option.some_inj.mp heq
      split
      · -- the removed tab was the active tab: afterwards nothing is open
        rename_i hcond
        have hac : act = some pid := hcond
        have hz : ∀ id, openCount (closeLastOpen pid now vis) id = 0 := by
          intro id
          by_cases hid : id = pid
          · subst hid
            exact openCount_closeLastOpen_zero now (inv1 id)
          · rw [openCount_closeLastOpen_other hid now vis]
            by_contra h
            rcases openCount_pos_iff.mp (Nat.pos_of_ne_zero h) with ⟨v, hv, hop⟩
            have habs := inv2 v hv (openFor_iff.mp hop).2
            rw [hac, (openFor_iff.mp hop).1] at habs
            simp only [Option.some_inj] at habs
            exact hid habs.symm
        split
        · exact trackerInv_cleared (closeLastOpen pid now vis)
            (modifyTab (modifyTab tbs pid (fun t =>
                { t with totalActiveTime := t.totalActiveTime + (now - ts) })) pid
              (fun t => { t with closedAt := some now, updatedAt := now }))
            sess (cache.filter (fun p => ¬ p.1 = tabId)) hz
        · exact trackerInv_cleared (closeLastOpen pid now vis)
            (modifyTab tbs pid (fun t => { t with closedAt := some now, updatedAt := now }))
            sess (cache.filter (fun p => ¬ p.1 = tabId)) hz
      · -- the removed tab was not active: open intervals are untouched or closed
        rename_i hcond
        refine ⟨?_, ?_, ?_⟩
        · intro id
          show openCount (closeLastOpen pid now vis) id ≤ 1
          by_cases hid : id = pid
          · subst hid
            exact le_trans (openCount_closeLastOpen_le id now vis) (inv1 id)
          · rw [openCount_closeLastOpen_other hid now vis]
            exact inv1 id
        · intro v hv hde
          show act = some v.tabPersistentId
          have hv' : v ∈ vis := by
            rcases mem_closeLastOpen hv with h | h
            · exact h
            · rw [hde] at h
              cases h
          exact inv2 v hv' hde
        · intro h
          exact inv3 h

theorem trackerInv_initial (tabs : List TrackedTab) (sessionId : Option String)
    (cache : List (Nat × String)) :
    TrackerInv (TrackerState.initial tabs sessionId cache) := by
  refine ⟨?_, ?_, ?_⟩
  · intro id
    show openCount [] id ≤ 1
    simp [openCount]
  · intro v hv
    cases hv
  · intro h
    exact absurd rfl h

theorem trackerInv_step {s s' : TrackerState} (inv : TrackerInv s)
    (h : TrackerStep s s') : TrackerInv s' := by
  cases h with
  | activated tabId w now hnow => exact trackerInv_handleTabActivated inv tabId w hnow
  | removed tabId now hnow => exact trackerInv_handleTabRemoved inv tabId hnow

theorem trackerInv_reachable {s : TrackerState} (h : TrackerReachable s) :
    TrackerInv s := by
  obtain ⟨tabs, sessionId, cache, hr⟩ := h
  induction hr with
  | refl => exact trackerInv_initial tabs sessionId cache
  | tail _ hstep ih => exact trackerInv_step ih hstep

/-- C9: in every state reachable from service start through the
tab-activation and tab-removal handlers, each tab owns at most one open
visit interval, and either handler applied to such a state preserves this. -/
theorem at_most_one_open_visit_per_tab {s : TrackerState} (h : TrackerReachable s) :
    (∀ id, openCount s.visits id ≤ 1) ∧
    (∀ s' : TrackerState, TrackerStep s s' → ∀ id, openCount s'.visits id ≤ 1) := by
  have inv := trackerInv_reachable h
  exact ⟨inv.1, fun s' hstep id => (trackerInv_step inv hstep).1 id⟩

/-- C9 witness: after activating tab 1 at t=100 and tab 2 at t=200 from a
fresh start, both tabs have at most one open visit. -/
theorem at_most_one_open_visit_per_tab_witness :
    openCount c9State.visits "p1" ≤ 1 ∧ openCount c9State.visits "p2" ≤ 1 := by
  have hreach : TrackerReachable c9State :=
    ⟨[baseTab "p1", baseTab "p2"], some "s", [(1, "p1"), (2, "p2")],
     Relation.ReflTransGen.tail
       (Relation.ReflTransGen.tail Relation.ReflTransGen.refl
         (TrackerStep.activated c9Start 1 none 100 (by decide)))
       (TrackerStep.activated (handleTabActivated c9Start 1 none 100) 2 none 200 (by decide))⟩
  exact ⟨(at_most_one_open_visit_per_tab hreach).1 "p1",
         (at_most_one_open_visit_per_tab hreach).1 "p2"⟩

/-! ## C10: opener-chain traversal on cyclic graphs -/

theorem getOpenerChainAux_ne_nil_inv {tabs : List TrackedTab}
    {rels : List TabRelationship} {fuel : Nat} {c : String} {vis : List String}
    (h : getOpenerChainAux tabs rels fuel c vis ≠ []) :
    ¬ (c = "" ∨ c ∈ vis) := by
  intro hguard
  apply h
  cases fuel with
  | zero => rfl
  | succ f =>
      simp only [getOpenerChainAux]
      rw [if_pos hguard]

theorem getOpenerChainAux_length_le (tabs : List TrackedTab)
    (rels : List TabRelationship) :
    ∀ (fuel : Nat) (c : String) (vis : List String),
      (getOpenerChainAux tabs rels fuel c vis).length ≤ fuel := by
  intro fuel
  induction fuel with
  | zero => intro c vis; simp [getOpenerChainAux]
  | succ f ih =>
      intro c vis
      simp only [getOpenerChainAux]
      split
      · simp
      · split
        · simp
        · split
          · simp
          · rename_i rel hrel parent hparent
            simp only [List.length_cons]
            exact Nat.succ_le_succ (ih _ _)

theorem getOpenerChainAux_dropLast_spec (tabs : List TrackedTab)
    (rels : List TabRelationship) :
    ∀ (fuel : Nat) (c : String) (vis : List String),
      (((getOpenerChainAux tabs rels fuel c vis).map
          (fun t => t.persistentId)).dropLast).Nodup ∧
      (∀ x ∈ ((getOpenerChainAux tabs rels fuel c vis).map
          (fun t => t.persistentId)).dropLast, ¬ x ∈ c :: vis) := by
  intro fuel
  induction fuel with
  | zero =>
      intro c vis
      constructor
      · simp [getOpenerChainAux]
      · intro x hx
        simp [getOpenerChainAux] at hx
  | succ f ih =>
      intro c vis
      simp only [getOpenerChainAux]
      split
      · exact ⟨by simp, by intro x hx; simp at hx⟩
      · split
        · exact ⟨by simp, by intro x hx; simp at hx⟩
        · split
          · exact ⟨by simp, by intro x hx; simp at hx⟩
          · rename_i optr rel hrel optt parent hparent
            have hpid : parent.persistentId = rel.sourceTabPersistentId := by
              have := List.find?_some hparent
              simpa using this
            rcases hrest : getOpenerChainAux tabs rels f rel.sourceTabPersistentId
                (c :: vis) with _ | ⟨r0, rrest⟩
            · exact ⟨by simp [hrest], by intro x hx; simp [hrest] at hx⟩
            · have hne : getOpenerChainAux tabs rels f rel.sourceTabPersistentId
                  (c :: vis) ≠ [] := by
                rw [hrest]
                simp
              have hsrc := getOpenerChainAux_ne_nil_inv hne
              obtain ⟨ihn, ihm⟩ := ih rel.sourceTabPersistentId (c :: vis)
              rw [hrest] at ihn ihm
              have hmapne : (r0 :: rrest).map (fun t => t.persistentId) ≠ [] := by
                simp
              constructor
              · rw [List.map_cons, List.dropLast_cons_of_ne_nil hmapne, List.nodup_cons]
                refine ⟨?_, ihn⟩
                intro hmem
                apply ihm _ hmem
                rw [hpid]
                exact List.mem_cons_self _ _
              · intro x hx
                rw [List.map_cons, List.dropLast_cons_of_ne_nil hmapne] at hx
                rcases List.mem_cons.mp hx with rfl | hx
                · rw [hpid]
                  intro hmem
                  exact hsrc (Or.inr hmem)
                · intro hmem
                  exact ihm x hx (List.mem_cons_of_mem _ hmem)

theorem filter_not_mem_cons_eq (l vis : List String) (c : String) :
    l.filter (fun x => ¬ x ∈ c :: vis)
      = (l.filter (fun x => ¬ x ∈ vis)).filter (fun x => ¬ x = c) := by
  rw [List.filter_filter]
  apply List.filter_congr
  intro x _
  by_cases h1 : x = c <;> by_cases h2 : x ∈ vis <;> simp [h1, h2]

theorem filter_not_mem_cons_length_le (l vis : List String) (c : String) :
    (l.filter (fun x => ¬ x ∈ c :: vis)).length
      ≤ (l.filter (fun x => ¬ x ∈ vis)).length := by
  rw [filter_not_mem_cons_eq]
  exact List.length_filter_le _ _

theorem filter_not_mem_cons_length_lt {l vis : List String} {c : String}
    (hc : c ∈ l) (hvis : ¬ c ∈ vis) :
    (l.filter (fun x => ¬ x ∈ c :: vis)).length
      < (l.filter (fun x => ¬ x ∈ vis)).length := by
  rw [filter_not_mem_cons_eq]
  apply List.length_filter_lt_length_iff_exists.mpr
  exact ⟨c, List.mem_filter.mpr ⟨hc, by simpa using hvis⟩, by simp⟩

theorem getOpenerChainAux_fuel_succ (tabs : List TrackedTab)
    (rels : List TabRelationship) :
    ∀ (fuel : Nat) (c : String) (vis : List String),
      (c ∈ (tabs.map (fun t => t.persistentId)).dedup →
        ((tabs.map (fun t => t.persistentId)).dedup.filter
            (fun x => ¬ x ∈ vis)).length + 1 ≤ fuel) →
      (¬ c ∈ (tabs.map (fun t => t.persistentId)).dedup →
        ((tabs.map (fun t => t.persistentId)).dedup.filter
            (fun x => ¬ x ∈ vis)).length + 2 ≤ fuel) →
      getOpenerChainAux tabs rels fuel c vis
        = getOpenerChainAux tabs rels (fuel + 1) c vis := by
  intro fuel
  induction fuel with
  | zero =>
      intro c vis h1 h2
      exfalso
      by_cases hc : c ∈ (tabs.map (fun t => t.persistentId)).dedup
      · have := h1 hc
        omega
      · have := h2 hc
        omega
  | succ f ih =>
      intro c vis h1 h2
      simp only [getOpenerChainAux]
      split
      · rfl
      · rename_i hguard
        split
        · rfl
        · rename_i optr rel hrel
          split
          · rfl
          · rename_i optt parent hparent
            congr 1
            have hpid : parent.persistentId = rel.sourceTabPersistentId := by
              have := List.find?_some hparent
              simpa using this
            have hsrc : rel.sourceTabPersistentId
                ∈ (tabs.map (fun t => t.persistentId)).dedup := by
              rw [List.mem_dedup]
              exact List.mem_map.mpr ⟨parent, List.mem_of_find?_eq_some hparent, hpid⟩
            apply ih
            · intro _
              by_cases hc : c ∈ (tabs.map (fun t => t.persistentId)).dedup
              · have hb := h1 hc
                have hcvis : ¬ c ∈ vis := fun hm => hguard (Or.inr hm)
                have hlt := filter_not_mem_cons_length_lt hc hcvis
                omega
              · have hb := h2 hc
                have hle := filter_not_mem_cons_length_le
                  (tabs.map (fun t => t.persistentId)).dedup vis c
                omega
            · intro hnot
              exact absurd hsrc hnot

theorem getOpenerChainAux_fuel_stable (tabs : List TrackedTab)
    (rels : List TabRelationship) (startId : String) :
    ∀ extra, getOpenerChainAux tabs rels (tabs.length + 2 + extra) startId []
      = getOpenerChainAux tabs rels (tabs.length + 2) startId [] := by
  have hfil : ((tabs.map (fun t => t.persistentId)).dedup.filter
      (fun x => ¬ x ∈ ([] : List String))).length ≤ tabs.length := by
    calc ((tabs.map (fun t => t.persistentId)).dedup.filter
          (fun x => ¬ x ∈ ([] : List String))).length
        ≤ (tabs.map (fun t => t.persistentId)).dedup.length :=
          List.length_filter_le _ _
      _ ≤ (tabs.map (fun t => t.persistentId)).length :=
          (List.dedup_sublist _).length_le
      _ = tabs.length := List.length_map _ _
  intro extra
  induction extra with
  | zero => rfl
  | succ e ih =>
      rw [← ih]
      have hstep := getOpenerChainAux_fuel_succ tabs rels (tabs.length + 2 + e)
        startId [] (fun _ => by omega) (fun _ => by omega)
      rw [show tabs.length + 2 + (e + 1) = tabs.length + 2 + e + 1 by omega]
      exact hstep.symm

/-- C10 amended: on every finite relationship set — cyclic opener graphs
included — `getOpenerChain` terminates with a finite chain: granting the
traversal any extra fuel does not change the result, and the chain holds at
most `tabs.length + 2` entries.  The visited-id check makes all chain
entries except possibly the LAST pairwise distinct; the final entry may
duplicate one earlier entry (or the start), because each parent is pushed
onto the chain before the visited check that stops the walk. -/
theorem getOpenerChain_terminates_nodup_dropLast (tabs : List TrackedTab)
    (rels : List TabRelationship) (startId : String) :
    (((getOpenerChain tabs rels startId).map
        (fun t => t.persistentId)).dropLast).Nodup ∧
    (getOpenerChain tabs rels startId).length ≤ tabs.length + 2 ∧
    (∀ extra, getOpenerChainAux tabs rels (tabs.length + 2 + extra) startId []
        = getOpenerChain tabs rels startId) :=
  ⟨(getOpenerChainAux_dropLast_spec tabs rels _ startId []).1,
   getOpenerChainAux_length_le tabs rels _ startId [],
   fun extra => getOpenerChainAux_fuel_stable tabs rels startId extra⟩

/-- C10 counterexample: on the rho-shaped opener graph (`x` opened by `a`,
`a` by `b`, `b` by `a`) the chain of `x` is `[a, b, a]` — the stable id `a`
appears twice, refuting "each stableId appears at most once". -/
theorem getOpenerChain_duplicate_final_entry :
    ((getOpenerChain c10Tabs c10Rels "x").map (fun t => t.persistentId))
      = ["a", "b", "a"] ∧
    ¬ (((getOpenerChain c10Tabs c10Rels "x").map
        (fun t => t.persistentId)).Nodup) := by
  decide

end Unos
